import Mathlib

/-!
# Amlogic window system and config.ini editor: a verification development

Shallow embedding of `xbmc/windowing/amlogic/WinSystemAmlogic.cpp` and
`xbmc/interfaces/legacy/configini.h`.

* A `std::string` is a finite sequence of `char`; it is embedded as `List Char`.
* `std::string::npos` is embedded as `none`, an index as `some i`.
* A C++ exception (`std::out_of_range`) is embedded as `Except.error`.
-/

set_option linter.dupNamespace false

namespace Kodi

/-! ## std::string operations used by the sources -/

/-- The exception classes the embedded code can raise. -/
inductive Exn where
  | out_of_range
  deriving DecidableEq, Repr

instance instDecidableEqExcept {ε α : Type} [DecidableEq ε] [DecidableEq α] :
    DecidableEq (Except ε α) := fun a b =>
  match a, b with
  | Except.ok x, Except.ok y =>
    if h : x = y then isTrue (by rw [h]) else isFalse (fun h2 => h (by cases h2; rfl))
  | Except.error x, Except.error y =>
    if h : x = y then isTrue (by rw [h]) else isFalse (fun h2 => h (by cases h2; rfl))
  | Except.ok _, Except.error _ => isFalse (fun h => by cases h)
  | Except.error _, Except.ok _ => isFalse (fun h => by cases h)

/-- Embedding of `std::string::find(needle)` (search from position 0): the first index at
which `needle` occurs, `none` for `npos`. -/
def find (s needle : List Char) : Option Nat :=
  match s with
  | [] => if needle = [] then some 0 else none
  | c :: cs =>
    if needle.isPrefixOf (c :: cs) then some 0
    else (find cs needle).map (· + 1)

/-- Embedding of `std::string::replace(pos, len, str)`: raises `out_of_range` when
`pos > size()`, otherwise the characters `[pos, pos + len)` (clipped to the end of the
string) are replaced by `str`. -/
def replace (s : List Char) (pos len : Nat) (str : List Char) : Except Exn (List Char) :=
  if pos > s.length then Except.error Exn.out_of_range
  else Except.ok (s.take pos ++ str ++ s.drop (pos + len))

/-- Embedding of `std::string::substr(pos)`: raises `out_of_range` when `pos > size()`. -/
def substr (s : List Char) (pos : Nat) : Except Exn (List Char) :=
  if pos > s.length then Except.error Exn.out_of_range
  else Except.ok (s.drop pos)

/-- Embedding of `s.replace(s.find(needle), len, str)`: an `npos` position is larger than
every size, so `replace` raises `out_of_range` on it. -/
def replaceAtFind (s needle : List Char) (len : Nat) (str : List Char) :
    Except Exn (List Char) :=
  match find s needle with
  | none => Except.error Exn.out_of_range
  | some pos => replace s pos len str

/-- Embedding of `s.c_str()` read back as a C string (by `%s` in a format, or by the
`std::string(const char*)` constructor): the characters before the first NUL. -/
def c_str (s : List Char) : List Char :=
  s.takeWhile (fun c => c != Char.ofNat 0)

/-- Embedding of `s.erase(remove(s.begin(), s.end(), c), s.end())`. -/
def eraseRemove (s : List Char) (c : Char) : List Char :=
  s.filter (fun d => d != c)

/-! ## StringUtils and XFILE::CFile, as far as configini.h relies on them -/

namespace StringUtils

/-- Modelled from the spec: `StringUtils::StartsWith` is not among the sources; `str1` begins
with `str2`. -/
def StartsWith (str1 str2 : List Char) : Bool :=
  str2.isPrefixOf str1

/-- Modelled from the spec: `StringUtils::RemoveCRLF` is not among the sources; the trailing
carriage-return and line-feed characters of the line are removed. -/
def RemoveCRLF (strLine : List Char) : List Char :=
  (strLine.reverse.dropWhile (fun c => c == '\n' || c == '\r')).reverse

/-- Modelled from the spec: `StringUtils::Split(input, "=", 2)` is not among the sources; the
empty input gives no piece, otherwise the input is cut at the first `=` into the text before
it and the whole rest, and is a single piece when it has no `=`. -/
def Split2 (input : List Char) : List (List Char) :=
  if input = [] then []
  else
    match find input "=".toList with
    | none => [input]
    | some i => [input.take i, input.drop (i + 1)]

/-- The result of `StringUtils::Format("%s=", key.c_str())`. -/
def FormatKey (key : List Char) : List Char :=
  c_str key ++ "=".toList

/-- The result of `StringUtils::Format("%s='%s'\n", key.c_str(), val.c_str())`. -/
def FormatLine (key val : List Char) : List Char :=
  c_str key ++ "='".toList ++ c_str val ++ "'\n".toList

end StringUtils

/-- The state of `/flash/config.ini` as seen through `XFILE::CFile`: its bytes (`none` when
the file does not exist) and whether `Open` and `OpenForWrite` succeed. -/
structure Flash where
  content : Option (List Char)
  openOk : Bool
  openForWriteOk : Bool
  deriving DecidableEq, Repr

namespace CFile

/-- One line of at most `n` characters from the front of the input, with the unread rest:
the line ends after its line feed, which it keeps. -/
def readLine : Nat → List Char → List Char × List Char
  | 0, s => ([], s)
  | _ + 1, [] => ([], [])
  | n + 1, c :: cs =>
    if c = '\n' then ([c], cs)
    else ((c :: (readLine n cs).1), (readLine n cs).2)

/-- Modelled from the spec: `XFILE::CFile::ReadString` is not among the sources; the file is
read back line by line, the last line possibly lacking a trailing newline. Each call of
`ReadString(szLine, iLineLength)` yields the next line with its line feed, at most
`iLineLength - 1` characters of it, and fails at the end of the file. The result lists the
strings pushed by `lines.push_back(szLine)` for the successive successful calls; `fuel`
bounds the number of calls. -/
def ReadStrings (iLineLength : Nat) : Nat → List Char → List (List Char)
  | 0, _ => []
  | _ + 1, [] => []
  | fuel + 1, c :: cs =>
    c_str (readLine (iLineLength - 1) (c :: cs)).1 ::
      ReadStrings iLineLength fuel (readLine (iLineLength - 1) (c :: cs)).2

end CFile

/-! ## configini (xbmc/interfaces/legacy/configini.h) -/

namespace configini

/-- Embedding of `configini::read` (lines 38-60): the success flag and the lines appended
to `lines`, which is empty at both call sites. Every call of `ReadString` with a buffer of
two or more characters consumes a character, so as many calls as the file has characters
read all of it. -/
def read (fl : Flash) : Bool × List (List Char) :=
  match fl.content with
  | some bytes =>
    if !fl.openOk then (false, [])
    else
      let lines := CFile.ReadStrings 1024 bytes.length bytes
      (decide (lines.length > 0), lines)
  | none => (false, [])

/-- The loop of `get` (lines 117-134) over the lines from the last to the first; `none` when
the loop ends without assigning `ret`. -/
def getLoop (key : List Char) : List (List Char) → Option (List Char)
  | [] => none
  | line :: rest =>
    let line := StringUtils.RemoveCRLF line
    if StringUtils.StartsWith line (StringUtils.FormatKey key) then
      let val := StringUtils.Split2 line
      if val.length = 2 then
        some (eraseRemove (eraseRemove (val.getD 1 []) '\"') '\'')
      else getLoop key rest
    else getLoop key rest

/-- Embedding of `configini::get` (lines 107-138). -/
def get (fl : Flash) (key : List Char) (def_no_value : List Char) : List Char :=
  let r := read fl
  if r.1 then
    match getLoop key r.2.reverse with
    | some ret => ret
    | none => def_no_value
  else def_no_value

/-- The two search loops of `set` (lines 167-178 and 183-194) over the lines from the last
to the first: the last line that contains `strKey` and passes `test` is replaced by
`newLine`; `none` when no line qualifies (`found` stays false). -/
def setLoop (strKey newLine : List Char) (test : List Char → Bool) :
    List (List Char) → Option (List (List Char))
  | [] => none
  | line :: rest =>
    if find line strKey ≠ none ∧ test line = true then some (newLine :: rest)
    else (setLoop strKey newLine test rest).map (fun r => line :: r)

/-- The lines held by `flines` when `set` reaches line 201. -/
def setLines (flines : List (List Char)) (key val : List Char) : List (List Char) :=
  let strKey := StringUtils.FormatKey key
  let val := eraseRemove (eraseRemove val '\"') '\''
  let newLine := StringUtils.FormatLine key val
  match setLoop strKey newLine
      (fun l => StringUtils.StartsWith l (StringUtils.FormatKey key)) flines.reverse with
  | some r => r.reverse
  | none =>
    match setLoop strKey newLine
        (fun l => StringUtils.StartsWith l "#".toList) flines.reverse with
    | some r => r.reverse
    | none => flines ++ [newLine]

/-- Embedding of `configini::set` (lines 149-214): the file after the call. The lines are
written one after the other with nothing added between them. -/
def set (fl : Flash) (key : List Char) (val : List Char) : Flash :=
  let r := read fl
  if r.1 then
    let flines := setLines r.2 key val
    if fl.openForWriteOk then { fl with content := some flines.flatten }
    else fl
  else fl

end configini

/-! ## Resolution descriptors and what the window system takes from outside -/

/-- The `OVERSCAN` member of a `RESOLUTION_INFO`. -/
structure OVERSCAN where
  left : Int
  top : Int
  right : Int
  bottom : Int
  deriving DecidableEq, Repr

/-- The members of `RESOLUTION_INFO` that `WinSystemAmlogic.cpp` reads or writes. The type
`F` stands for `float`. -/
structure RESOLUTION_INFO (F : Type) where
  Overscan : OVERSCAN
  iWidth : Int
  iHeight : Int
  iScreenWidth : Int
  iScreenHeight : Int
  dwFlags : Nat
  fRefreshRate : F
  deriving DecidableEq, Repr

/-- What `WinSystemAmlogic.cpp` uses and does not declare: constants of `Resolution.h`, the
two comparisons on `float`, the default-constructed `RESOLUTION_INFO`, the overscan that
`CGraphicContext::ResetOverscan` stores, and the base-class step of `UpdateResolutions`. -/
structure External (F : Type) where
  /-- The index `RES_DESKTOP`. -/
  RES_DESKTOP : Nat
  /-- The mask `D3DPRESENTFLAG_MODEMASK`. -/
  D3DPRESENTFLAG_MODEMASK : Nat
  /-- The comparison `a == b` on `float`. -/
  floatEq : F → F → Bool
  /-- The test `fabs(a - b) < FLT_EPSILON` on `float`. -/
  fabsDiffLtEpsilon : F → F → Bool
  /-- The value of a default-constructed `RESOLUTION_INFO`. -/
  defaultInfo : RESOLUTION_INFO F
  /-- The overscan written by `ResetOverscan`. -/
  resetOverscan : RESOLUTION_INFO F → OVERSCAN
  /-- The effect of `CWinSystemBase::UpdateResolutions` on the stored slots. -/
  baseUpdateResolutions : List (RESOLUTION_INFO F) → List (RESOLUTION_INFO F)

/-- Modelled from the spec: `CGraphicContext::ResetOverscan` is not among the sources; it
resets the overscan calibration of the descriptor and leaves its other members alone. -/
def ResetOverscan {F : Type} (X : External F) (res : RESOLUTION_INFO F) : RESOLUTION_INFO F :=
  { res with Overscan := X.resetOverscan res }

namespace CDisplaySettings

/-- Modelled from the spec: `CDisplaySettings::AddResolutionInfo` is not among the sources;
storage grows by one slot at the end, existing slots are neither removed nor reordered. -/
def AddResolutionInfo {F : Type} (slots : List (RESOLUTION_INFO F)) (res : RESOLUTION_INFO F) :
    List (RESOLUTION_INFO F) :=
  slots ++ [res]

/-- Modelled from the spec: `CDisplaySettings::GetResolutionInfo` is not among the sources;
an assignment through the returned reference overwrites the content of the slot at `index`.
An index past the end names no slot of the storage. -/
def SetResolutionInfo {F : Type} (slots : List (RESOLUTION_INFO F)) (index : Nat)
    (res : RESOLUTION_INFO F) : List (RESOLUTION_INFO F) :=
  slots.set index res

/-- Modelled from the spec: `CDisplaySettings::GetResolutionInfo` is not among the sources;
reading through the returned reference gives the content of the slot at `index`. -/
def GetResolutionInfo {F : Type} (X : External F) (slots : List (RESOLUTION_INFO F))
    (index : Nat) : RESOLUTION_INFO F :=
  slots.getD index X.defaultInfo

end CDisplaySettings

/-- A registered `IDispResource*`. -/
abbrev IDispResource := Nat

/-- What a handler of a dependent resource can do to the registry of the window system
while it runs: calls of `Register` and `Unregister`. -/
inductive RegistryCall where
  | Register (resource : IDispResource)
  | Unregister (resource : IDispResource)
  deriving DecidableEq, Repr

/-- The calls that leave the window system and the calls of the resource handlers, in the
order in which `CreateNewWindow` makes them. -/
inductive Event (F : Type) where
  | OnLostDisplay (resource : IDispResource)
  | OnResetDisplay (resource : IDispResource)
  | aml_set_native_resolution (res : RESOLUTION_INFO F) (framebuffer_name : List Char)
      (stereo_mode : Nat)
  deriving DecidableEq, Repr

/-- The members of `CWinSystemAmlogic` (its own and those of `CWinSystemBase`) that
`WinSystemAmlogic.cpp` reads or writes. `m_resources` lists the elements of the vector.
`m_dispResetTimer` holds the `unsigned int` duration it was last set to, `none` while it has
never been set. -/
structure WinSystem (F : Type) where
  m_framebuffer_name : List Char
  m_nWidth : Int
  m_nHeight : Int
  m_displayWidth : Int
  m_displayHeight : Int
  m_fRefreshRate : F
  m_bWindowCreated : Bool
  m_bFullScreen : Bool
  m_stereo_mode : Nat
  m_delayDispReset : Bool
  m_dispResetTimer : Option Nat
  m_resources : List IDispResource
  deriving DecidableEq, Repr

/-- What one call of `CreateNewWindow` reads from outside the members listed in `WinSystem`:
the stereo mode, the live mode, the delay setting, what the handlers of the resources do,
and the capacity of the vector `m_resources`, which the list of its elements does not carry
(a run that ends leaves the capacity as it is). -/
structure CallContext (F : Type) where
  /-- The result of `GetGfxContext().GetStereoMode()`. -/
  stereo_mode : Nat
  /-- The mode written by `aml_get_native_resolution`, `none` when it returns false. -/
  native_resolution : Option (RESOLUTION_INFO F)
  /-- The setting `videoscreen.delayrefreshchange`. -/
  delay : Int
  /-- The registry calls made by the `OnLostDisplay` handler of each resource. -/
  onLostDisplay : IDispResource → List RegistryCall
  /-- The registry calls made by the `OnResetDisplay` handler of each resource. -/
  onResetDisplay : IDispResource → List RegistryCall
  /-- The value of `m_resources.capacity()` when the call starts. -/
  resources_capacity : Nat

/-- The outcome of `CreateNewWindow`: the window system after the call, the calls made, and
the return value. -/
structure Outcome (F : Type) where
  state : WinSystem F
  events : List (Event F)
  ret : Bool
  deriving DecidableEq

/-- How a piece of the embedded code runs: it ends with a result, or it reaches a step for
which C++ defines no behaviour (an invalidated iterator is used), or it has not ended when
the steps granted to it are used up. -/
inductive Run (α : Type) where
  | done (result : α)
  | undefined
  | unfinished
  deriving DecidableEq, Repr

/-- The run that continues with `f` after a run that ended. -/
def Run.andThen {α β : Type} (r : Run α) (f : α → Run β) : Run β :=
  match r with
  | Run.done a => f a
  | Run.undefined => Run.undefined
  | Run.unfinished => Run.unfinished

namespace CWinSystemAmlogic

/-! ### The constructor, lines 43-73 -/

/-- The value of `m_framebuffer_name` after lines 46-55; `env_framebuffer` is the result of
`getenv("FRAMEBUFFER")`, `none` for a null pointer. -/
def framebuffer_name (env_framebuffer : Option (List Char)) : Except Exn (List Char) :=
  match env_framebuffer with
  | none => Except.ok "fb0".toList
  | some framebuffer =>
    match find framebuffer "fb".toList with
    | none => Except.error Exn.out_of_range
    | some start => substr framebuffer start

/-- Embedding of the constructor: `base` holds the members as the base-class constructor
left them, `RENDER_STEREO_MODE_OFF` is the value of that enumerator. The outcome is an
exception when one leaves the constructor. -/
def CWinSystemAmlogic {F : Type} (base : WinSystem F) (RENDER_STEREO_MODE_OFF : Nat)
    (env_framebuffer : Option (List Char)) : Except Exn (WinSystem F) :=
  match framebuffer_name env_framebuffer with
  | Except.error e => Except.error e
  | Except.ok name =>
    Except.ok { base with
      m_framebuffer_name := name
      m_displayWidth := 0
      m_displayHeight := 0
      m_stereo_mode := RENDER_STEREO_MODE_OFF
      m_delayDispReset := false
      m_resources := [] }

/-! ### InitWindowSystem, the HDMI attribute step (lines 107-131) -/

/-- The forced-4:2:2 branch, lines 110-119. -/
def force422Step (attr : List Char) : Except Exn (List Char) :=
  if find attr "444".toList ≠ none ∨ find attr "422".toList ≠ none ∨
      find attr "420".toList ≠ none then
    replaceAtFind attr "4".toList 3 "422".toList
  else
    Except.ok (attr ++ "422".toList)

/-- The limit-8-bit branch, lines 120-131. -/
def limit8bitStep (attr : List Char) : Except Exn (List Char) :=
  if find attr "10bit".toList ≠ none then
    replaceAtFind attr "10bit".toList 5 "8bit".toList
  else if find attr "12bit".toList ≠ none then
    replaceAtFind attr "12bit".toList 5 "8bit".toList
  else if find attr "8bit".toList ≠ none then
    Except.ok attr
  else
    Except.ok (attr ++ "8bit".toList)

/-- The value of `attr` when `InitWindowSystem` reaches line 132, from the string read from
sysfs at line 108 and the settings `FORCE422` and `LIMIT8BIT`. -/
def InitWindowSystem_attr (force422 limit8bit : Bool) (attr : List Char) :
    Except Exn (List Char) :=
  match (if force422 then force422Step attr else Except.ok attr) with
  | Except.error e => Except.error e
  | Except.ok attr => if limit8bit then limit8bitStep attr else Except.ok attr

/-! ### Register and Unregister, lines 317-329 -/

/-- Embedding of `Register`: `m_resources.push_back(resource)`. -/
def Register (m_resources : List IDispResource) (resource : IDispResource) :
    List IDispResource :=
  m_resources ++ [resource]

/-- Embedding of `Unregister`: the first element equal to `resource` is erased, if any. -/
def Unregister (m_resources : List IDispResource) (resource : IDispResource) :
    List IDispResource :=
  m_resources.erase resource

/-- The registry after the registry calls that one handler makes while the loop iterator
stands at position `i`; `none` when one of them invalidates that iterator. `Unregister`
erases the first element equal to its argument, which invalidates the iterators at and
after it: the call is harmless only when that element lies after position `i` (or is not
there). `Register` appends; when the size has reached `capacity` the vector reallocates,
which invalidates every iterator. -/
def applyCalls (capacity i : Nat) :
    List IDispResource → List RegistryCall → Option (List IDispResource)
  | m_resources, [] => some m_resources
  | m_resources, RegistryCall.Register r :: rest =>
    if m_resources.length < capacity then applyCalls capacity i (Register m_resources r) rest
    else none
  | m_resources, RegistryCall.Unregister r :: rest =>
    if r ∈ m_resources.take (i + 1) then none
    else applyCalls capacity i (Unregister m_resources r) rest

/-! ### CreateNewWindow, lines 163-226 -/

/-- Embedding of the loops at lines 197-200 and 219-222. The iterator is the position `i`
in `m_resources`. The loop ends when `i != m_resources.end()` fails, that is when `i` is
the size, read again before every step; an `i` past the size passes that test and is
dereferenced outside the vector. The handler of the element at `i` runs on the registry
itself (the lock of `m_resourceSection` is held by the calling thread, which may enter
`Register` and `Unregister` again); after a handler that has invalidated the iterator,
`++i` has no defined behaviour. The result of a run that ends is the registry after the
loop and the resources whose handler was called, in order; `fuel` is the number of steps
granted. -/
def notifyLoop (capacity : Nat) (handler : IDispResource → List RegistryCall) :
    Nat → Nat → List IDispResource → Run (List IDispResource × List IDispResource)
  | 0, i, m_resources =>
    if i = m_resources.length then Run.done (m_resources, [])
    else if m_resources.length < i then Run.undefined
    else Run.unfinished
  | fuel + 1, i, m_resources =>
    if i = m_resources.length then Run.done (m_resources, [])
    else
      match m_resources.get? i with
      | none => Run.undefined
      | some r =>
        match applyCalls capacity i m_resources (handler r) with
        | none => Run.undefined
        | some m =>
          match notifyLoop capacity handler fuel (i + 1) m with
          | Run.done (m2, called) => Run.done (m2, r :: called)
          | Run.undefined => Run.undefined
          | Run.unfinished => Run.unfinished

/-- The condition of the short circuit, lines 177-182. -/
def noNeedToCreate {F : Type} (X : External F) (s : WinSystem F) (C : CallContext F)
    (fullScreen : Bool) (res : RESOLUTION_INFO F) : Bool :=
  match (if s.m_bWindowCreated then C.native_resolution else none) with
  | none => false
  | some current_resolution =>
    decide (current_resolution.iWidth = res.iWidth) &&
    decide (current_resolution.iHeight = res.iHeight) &&
    decide (current_resolution.iScreenWidth = res.iScreenWidth) &&
    decide (current_resolution.iScreenHeight = res.iScreenHeight) &&
    (s.m_bFullScreen == fullScreen) &&
    X.floatEq current_resolution.fRefreshRate res.fRefreshRate &&
    decide (current_resolution.dwFlags &&& X.D3DPRESENTFLAG_MODEMASK =
      res.dwFlags &&& X.D3DPRESENTFLAG_MODEMASK) &&
    decide (s.m_stereo_mode = C.stereo_mode)

/-- The argument that `m_dispResetTimer.Set(delay * 100)` receives: the product is formed
in `int` and converted to the `unsigned int` parameter of `Set`, which gives the product
modulo 2^32 (where the product leaves the range of `int` it wraps around in two's
complement, as the compiled code does). -/
def timerArgument (delay : Int) : Nat :=
  ((delay * 100) % 4294967296).toNat

/-- Embedding of `CreateNewWindow`; the block under `_FBDEV_WINDOW_H_` only allocates the
native window and is left out. Each of the two notification loops is granted `fuel`
steps. -/
def CreateNewWindow {F : Type} (X : External F) (fuel : Nat) (s : WinSystem F)
    (C : CallContext F) (fullScreen : Bool) (res : RESOLUTION_INFO F) : Run (Outcome F) :=
  let s := { s with
    m_nWidth := res.iWidth
    m_nHeight := res.iHeight
    m_displayWidth := res.iScreenWidth
    m_displayHeight := res.iScreenHeight
    m_fRefreshRate := res.fRefreshRate }
  if noNeedToCreate X s C fullScreen res then
    Run.done { state := s, events := [], ret := true }
  else
    let s := if C.delay > 0 then
        { s with m_delayDispReset := true, m_dispResetTimer := some (timerArgument C.delay) }
      else s
    match notifyLoop C.resources_capacity C.onLostDisplay fuel 0 s.m_resources with
    | Run.undefined => Run.undefined
    | Run.unfinished => Run.unfinished
    | Run.done (m, lost) =>
      let s := { s with
        m_resources := m
        m_stereo_mode := C.stereo_mode
        m_bFullScreen := fullScreen }
      let switch := [Event.aml_set_native_resolution res s.m_framebuffer_name C.stereo_mode]
      if !s.m_delayDispReset then
        match notifyLoop C.resources_capacity C.onResetDisplay fuel 0 s.m_resources with
        | Run.undefined => Run.undefined
        | Run.unfinished => Run.unfinished
        | Run.done (m, reset) =>
          Run.done { state := { s with m_resources := m },
                     events := lost.map Event.OnLostDisplay ++ switch ++
                       reset.map Event.OnResetDisplay,
                     ret := true }
      else
        Run.done { state := s, events := lost.map Event.OnLostDisplay ++ switch, ret := true }

/-! ### UpdateResolutions, lines 235-303 -/

/-- The comparison at lines 279-284. -/
def matchesDesktop {F : Type} (X : External F) (resDesktop r : RESOLUTION_INFO F) : Bool :=
  decide (resDesktop.iWidth = r.iWidth) &&
  decide (resDesktop.iHeight = r.iHeight) &&
  decide (resDesktop.iScreenWidth = r.iScreenWidth) &&
  decide (resDesktop.iScreenHeight = r.iScreenHeight) &&
  decide (resDesktop.dwFlags &&& X.D3DPRESENTFLAG_MODEMASK =
    r.dwFlags &&& X.D3DPRESENTFLAG_MODEMASK) &&
  X.fabsDiffLtEpsilon resDesktop.fRefreshRate r.fRefreshRate

/-- The loop at lines 258-290 over the probed resolutions still to visit, from the stored
slots, `res_index` and `ResDesktop` (`none` for `RES_INVALID`) to the stored slots and
`ResDesktop` after the loop. -/
def updateLoop {F : Type} (X : External F) (resDesktop : RESOLUTION_INFO F) :
    List (RESOLUTION_INFO F) → List (RESOLUTION_INFO F) → Nat → Option Nat →
    List (RESOLUTION_INFO F) × Option Nat
  | [], slots, _, ResDesktop => (slots, ResDesktop)
  | r :: rest, slots, res_index, ResDesktop =>
    let slots :=
      if slots.length ≤ res_index then CDisplaySettings.AddResolutionInfo slots X.defaultInfo
      else slots
    let r := ResetOverscan X r
    let slots := CDisplaySettings.SetResolutionInfo slots res_index r
    let ResDesktop := if matchesDesktop X resDesktop r then some res_index else ResDesktop
    updateLoop X resDesktop rest slots (res_index + 1) ResDesktop

/-- Embedding of `UpdateResolutions`: the stored slots after the call, from the stored slots
before it, the vector filled by `aml_probe_resolutions` (whose return value is only logged)
and the mode written by `aml_get_native_resolution` (`none` when it returns false, which
leaves `resDesktop` default-constructed). -/
def UpdateResolutions {F : Type} (X : External F) (slots : List (RESOLUTION_INFO F))
    (resolutions : List (RESOLUTION_INFO F)) (native_resolution : Option (RESOLUTION_INFO F)) :
    List (RESOLUTION_INFO F) :=
  let slots := X.baseUpdateResolutions slots
  let resDesktop :=
    match native_resolution with
    | some curDisplay => curDisplay
    | none => X.defaultInfo
  let after := updateLoop X resDesktop resolutions slots X.RES_DESKTOP none
  match after.2 with
  | some ResDesktop =>
    CDisplaySettings.SetResolutionInfo after.1 X.RES_DESKTOP
      (CDisplaySettings.GetResolutionInfo X after.1 ResDesktop)
  | none => after.1

end CWinSystemAmlogic

/-! ## Vocabulary of the properties -/

/-- The three-character subsampling tokens. -/
def isSubsamplingToken (t : List Char) : Bool :=
  t == "444".toList || t == "422".toList || t == "420".toList

/-- A subsampling token occurs in `s` at position `i`. -/
def tokenAt (s : List Char) (i : Nat) : Bool :=
  isSubsamplingToken ((s.drop i).take 3)

/-- A line of config.ini that ends in its line feed, has no other line feed and no NUL, and
fits the read buffer of 1024 characters. -/
def terminatedLine (l : List Char) : Prop :=
  ∃ body, l = body ++ ['\n'] ∧ '\n' ∉ body ∧ Char.ofNat 0 ∉ body ∧ body.length < 1023

/-! ## Concrete instances -/

/-- An instance of what the sources take from outside, with refresh rates in whole
millihertz: `RES_DESKTOP` is 16, `D3DPRESENTFLAG_MODEMASK` is 25 (the bits 1, 8 and 16:
interlaced, 3D side by side, 3D top and bottom), on whole millihertz both comparisons of
`float` are equality, the default descriptor is 1280 by 720, the overscan is reset to the
full picture, and the base-class step changes no slot. -/
def sampleExternal : External Int where
  RES_DESKTOP := 16
  D3DPRESENTFLAG_MODEMASK := 25
  floatEq := fun a b => a == b
  fabsDiffLtEpsilon := fun a b => a == b
  defaultInfo := ⟨⟨0, 0, 0, 0⟩, 1280, 720, 1280, 720, 0, 0⟩
  resetOverscan := fun r => ⟨0, 0, r.iWidth, r.iHeight⟩
  baseUpdateResolutions := fun slots => slots

/-- The mode 1920x1080 at 60 Hz, progressive (flag bit 4). -/
def mode1080p60 : RESOLUTION_INFO Int :=
  ⟨⟨0, 0, 1920, 1080⟩, 1920, 1080, 1920, 1080, 4, 60000⟩

/-- The mode 1280x720 at 50 Hz, progressive (flag bit 4). -/
def mode720p50 : RESOLUTION_INFO Int :=
  ⟨⟨0, 0, 1280, 720⟩, 1280, 720, 1280, 720, 4, 50000⟩

/-- The mode 3840x2160 at 30 Hz, progressive (flag bit 4). -/
def mode2160p30 : RESOLUTION_INFO Int :=
  ⟨⟨0, 0, 3840, 2160⟩, 3840, 2160, 3840, 2160, 4, 30000⟩

/-- Seventeen stored slots (indices 0 to 16), all holding 1920x1080 at 60 Hz. -/
def sampleSlots : List (RESOLUTION_INFO Int) :=
  List.replicate 17 mode1080p60

/-- A window system on "fb0" with no window recorded, no reset pending and no resource
registered. -/
def sampleWinSystem : WinSystem Int where
  m_framebuffer_name := "fb0".toList
  m_nWidth := 0
  m_nHeight := 0
  m_displayWidth := 0
  m_displayHeight := 0
  m_fRefreshRate := 0
  m_bWindowCreated := false
  m_bFullScreen := false
  m_stereo_mode := 0
  m_delayDispReset := false
  m_dispResetTimer := none
  m_resources := []

/-- A call context: stereo mode off, the live mode is 1920x1080 at 60 Hz, the given reset
delay, handlers that make the given registry calls, and a registry vector with room for
four elements. -/
def sampleContext (delay : Int) (onLost onReset : IDispResource → List RegistryCall) :
    CallContext Int where
  stereo_mode := 0
  native_resolution := some mode1080p60
  delay := delay
  onLostDisplay := onLost
  onResetDisplay := onReset
  resources_capacity := 4

/-- Handlers that leave the registry alone. -/
def quietHandler : IDispResource → List RegistryCall :=
  fun _ => []

/-- The handler of resource 1 unregisters resource 2; the other handlers leave the registry
alone. -/
def firstUnregistersSecond : IDispResource → List RegistryCall :=
  fun r => if r = 1 then [RegistryCall.Unregister 2] else []

/-- Every handler unregisters its own resource. -/
def unregistersItself : IDispResource → List RegistryCall :=
  fun r => [RegistryCall.Unregister r]

/-! ## Facts about the string operations -/

theorem find_some_starts (needle : List Char) :
    ∀ (s : List Char) (p : Nat), find s needle = some p → needle <+: s.drop p := by
  intro s
  induction s with
  | nil =>
    intro p h
    unfold find at h
    split at h
    · rename_i h0
      simp [h0]
    · cases h
  | cons c cs ih =>
    intro p h
    unfold find at h
    split at h
    · rename_i h0
      cases h
      simpa using h0
    · cases hq : find cs needle with
      | none => simp [hq] at h
      | some q =>
        simp [hq] at h
        subst h
        simpa using ih q hq

theorem find_some_first (needle : List Char) :
    ∀ (s : List Char) (p : Nat), find s needle = some p →
      ∀ j, j < p → ¬ needle <+: s.drop j := by
  intro s
  induction s with
  | nil =>
    intro p h j hj
    unfold find at h
    split at h
    · cases h; omega
    · cases h
  | cons c cs ih =>
    intro p h j hj
    unfold find at h
    split at h
    · cases h; omega
    · rename_i h0
      cases hq : find cs needle with
      | none => simp [hq] at h
      | some q =>
        simp [hq] at h
        subst h
        cases j with
        | zero => simpa using h0
        | succ k => simpa using ih q hq k (by omega)

theorem find_some_le (needle : List Char) :
    ∀ (s : List Char) (p : Nat), find s needle = some p → p ≤ s.length := by
  intro s
  induction s with
  | nil =>
    intro p h
    unfold find at h
    split at h
    · cases h; simp
    · cases h
  | cons c cs ih =>
    intro p h
    unfold find at h
    split at h
    · cases h; simp
    · cases hq : find cs needle with
      | none => simp [hq] at h
      | some q =>
        simp [hq] at h
        subst h
        have := ih q hq
        simp
        omega

theorem find_none_never_starts (needle : List Char) :
    ∀ (s : List Char), find s needle = none → ∀ j, ¬ needle <+: s.drop j := by
  intro s
  induction s with
  | nil =>
    intro h j
    unfold find at h
    split at h
    · cases h
    · rename_i h0
      simpa using h0
  | cons c cs ih =>
    intro h j
    unfold find at h
    split at h
    · cases h
    · rename_i h0
      cases hq : find cs needle with
      | some q => simp [hq] at h
      | none =>
        cases j with
        | zero => simpa using h0
        | succ k => simpa using ih hq k

theorem find_ne_none_iff_occurs (s needle : List Char) :
    find s needle ≠ none ↔ needle <:+: s := by
  constructor
  · intro h
    cases hq : find s needle with
    | none => exact absurd hq h
    | some p =>
      have h1 := find_some_starts needle s p hq
      exact h1.isInfix.trans (List.drop_suffix p s).isInfix
  · intro h hn
    obtain ⟨pre, post, rfl⟩ := h
    apply find_none_never_starts needle _ hn pre.length
    simp

theorem find_some_bound (s needle : List Char) (p : Nat) (h : find s needle = some p) :
    p + needle.length ≤ s.length := by
  have h1 := (find_some_starts needle s p h).length_le
  have h2 := find_some_le needle s p h
  simp at h1
  omega

/-- The string splits around the first occurrence that `find` reports. -/
theorem find_some_split (s needle : List Char) (p : Nat) (h : find s needle = some p) :
    s = s.take p ++ needle ++ s.drop (p + needle.length) := by
  obtain ⟨t, ht⟩ := find_some_starts needle s p h
  have h3 : s.drop (p + needle.length) = t := by
    rw [← List.drop_drop, ← ht]
    simp
  rw [h3, List.append_assoc, ht]
  simp

/-! ## InitWindowSystem: the HDMI attribute string -/

theorem replaceAtFind_eq (s needle str : List Char) (p : Nat) (h : find s needle = some p) :
    replaceAtFind s needle needle.length str =
      Except.ok (s.take p ++ str ++ s.drop (p + needle.length)) := by
  have hb := find_some_le needle s p h
  simp [replaceAtFind, h, replace]
  omega

theorem InitWindowSystem_attr_force (attr : List Char) :
    CWinSystemAmlogic.InitWindowSystem_attr true false attr =
      CWinSystemAmlogic.force422Step attr := by
  simp only [CWinSystemAmlogic.InitWindowSystem_attr]
  cases CWinSystemAmlogic.force422Step attr <;> simp

theorem InitWindowSystem_attr_limit (attr : List Char) :
    CWinSystemAmlogic.InitWindowSystem_attr false true attr =
      CWinSystemAmlogic.limit8bitStep attr := by
  simp [CWinSystemAmlogic.InitWindowSystem_attr]

/-- C8: on an attribute string that contains none of "444", "422", "420", the forced-4:2:2
step (force-4:2:2 on, limit-8-bit off) yields the input with "422" appended. -/
theorem force422_appends_when_no_token (attr : List Char)
    (h444 : ¬ "444".toList <:+: attr) (h422 : ¬ "422".toList <:+: attr)
    (h420 : ¬ "420".toList <:+: attr) :
    CWinSystemAmlogic.InitWindowSystem_attr true false attr =
      Except.ok (attr ++ "422".toList) := by
  have a := (find_ne_none_iff_occurs attr "444".toList).not.mpr h444
  have b := (find_ne_none_iff_occurs attr "422".toList).not.mpr h422
  have c := (find_ne_none_iff_occurs attr "420".toList).not.mpr h420
  simp only [ne_eq, not_not] at a b c
  rw [InitWindowSystem_attr_force]
  simp only [CWinSystemAmlogic.force422Step, a, b, c]
  simp

theorem force422_appends_when_no_token_witness :
    CWinSystemAmlogic.InitWindowSystem_attr true false "rgb,8bit".toList =
      Except.ok "rgb,8bit422".toList :=
  force422_appends_when_no_token "rgb,8bit".toList (by decide) (by decide) (by decide)

/-- C2, as stated, fails: "8bit,10bit" contains "8bit", and the limit-8-bit step does not
leave it unchanged. -/
theorem limit8bit_changes_string_with_8bit :
    "8bit".toList <:+: "8bit,10bit".toList ∧
    CWinSystemAmlogic.InitWindowSystem_attr false true "8bit,10bit".toList =
      Except.ok "8bit,8bit".toList ∧
    "8bit,8bit".toList ≠ "8bit,10bit".toList := by
  decide

/-- C2, amended: the limit-8-bit step (limit-8-bit on, force-4:2:2 off) tries the tokens in
the order "10bit", "12bit", "8bit". If the string contains "10bit", its first occurrence is
replaced by "8bit"; otherwise, if it contains "12bit", the first occurrence of that is
replaced by "8bit"; otherwise, if it contains "8bit", the result is the input; otherwise
the result is the input with "8bit" appended. -/
theorem limit8bit_by_priority (attr : List Char) :
    ("10bit".toList <:+: attr →
      ∃ pre post, attr = pre ++ "10bit".toList ++ post ∧
        (∀ j, j < pre.length → ¬ "10bit".toList <+: attr.drop j) ∧
        CWinSystemAmlogic.InitWindowSystem_attr false true attr =
          Except.ok (pre ++ "8bit".toList ++ post)) ∧
    (¬ "10bit".toList <:+: attr → "12bit".toList <:+: attr →
      ∃ pre post, attr = pre ++ "12bit".toList ++ post ∧
        (∀ j, j < pre.length → ¬ "12bit".toList <+: attr.drop j) ∧
        CWinSystemAmlogic.InitWindowSystem_attr false true attr =
          Except.ok (pre ++ "8bit".toList ++ post)) ∧
    (¬ "10bit".toList <:+: attr → ¬ "12bit".toList <:+: attr → "8bit".toList <:+: attr →
      CWinSystemAmlogic.InitWindowSystem_attr false true attr = Except.ok attr) ∧
    (¬ "10bit".toList <:+: attr → ¬ "12bit".toList <:+: attr → ¬ "8bit".toList <:+: attr →
      CWinSystemAmlogic.InitWindowSystem_attr false true attr =
        Except.ok (attr ++ "8bit".toList)) := by
  rw [InitWindowSystem_attr_limit]
  refine ⟨?_, ?_, ?_, ?_⟩
  · intro h10
    have a := (find_ne_none_iff_occurs attr "10bit".toList).mpr h10
    cases hq : find attr "10bit".toList with
    | none => exact absurd hq a
    | some p =>
      have hlen := find_some_le _ _ _ hq
      refine ⟨attr.take p, attr.drop (p + 5), find_some_split _ _ _ hq, ?_, ?_⟩
      · intro j hj
        apply find_some_first _ _ _ hq
        simp at hj
        omega
      · have h5 := replaceAtFind_eq attr "10bit".toList "8bit".toList p hq
        simp only [CWinSystemAmlogic.limit8bitStep, hq]
        exact h5
  · intro h10 h12
    have a := (find_ne_none_iff_occurs attr "10bit".toList).not.mpr h10
    have b := (find_ne_none_iff_occurs attr "12bit".toList).mpr h12
    simp only [ne_eq, not_not] at a
    cases hq : find attr "12bit".toList with
    | none => exact absurd hq b
    | some p =>
      have hlen := find_some_le _ _ _ hq
      refine ⟨attr.take p, attr.drop (p + 5), find_some_split _ _ _ hq, ?_, ?_⟩
      · intro j hj
        apply find_some_first _ _ _ hq
        simp at hj
        omega
      · have h5 := replaceAtFind_eq attr "12bit".toList "8bit".toList p hq
        simp only [CWinSystemAmlogic.limit8bitStep, hq, a]
        exact h5
  · intro h10 h12 h8
    have a := (find_ne_none_iff_occurs attr "10bit".toList).not.mpr h10
    have b := (find_ne_none_iff_occurs attr "12bit".toList).not.mpr h12
    have c := (find_ne_none_iff_occurs attr "8bit".toList).mpr h8
    simp only [ne_eq, not_not] at a b
    simp only [CWinSystemAmlogic.limit8bitStep, a, b]
    rw [if_neg (by simp), if_neg (by simp), if_pos c]
  · intro h10 h12 h8
    have a := (find_ne_none_iff_occurs attr "10bit".toList).not.mpr h10
    have b := (find_ne_none_iff_occurs attr "12bit".toList).not.mpr h12
    have c := (find_ne_none_iff_occurs attr "8bit".toList).not.mpr h8
    simp only [ne_eq, not_not] at a b c
    simp only [CWinSystemAmlogic.limit8bitStep, a, b, c]
    simp

theorem limit8bit_by_priority_witness :
    CWinSystemAmlogic.InitWindowSystem_attr false true "444,8bit".toList =
      Except.ok "444,8bit".toList :=
  (limit8bit_by_priority "444,8bit".toList).2.2.1 (by decide) (by decide) (by decide)

theorem singleton_prefix_drop_iff (c : Char) (s : List Char) (j : Nat) :
    [c] <+: s.drop j ↔ s[j]? = some c := by
  have h0 : s[j]? = (s.drop j)[0]? := by simp
  rw [h0]
  cases s.drop j with
  | nil => simp
  | cons x xs =>
    simp [List.cons_prefix_cons]
    exact eq_comm

theorem tokenAt_head (s : List Char) (j : Nat) (h : tokenAt s j = true) :
    s[j]? = some '4' := by
  have h0 : s[j]? = ((s.drop j).take 3)[0]? := by simp [List.getElem?_take]
  rw [h0]
  simp only [tokenAt, isSubsamplingToken, Bool.or_eq_true, beq_iff_eq] at h
  rcases h with (h | h) | h <;> rw [h] <;> rfl

theorem tokenAt_bound (s : List Char) (j : Nat) (h : tokenAt s j = true) :
    j + 3 ≤ s.length := by
  have h3 : ((s.drop j).take 3).length = 3 := by
    simp only [tokenAt, isSubsamplingToken, Bool.or_eq_true, beq_iff_eq] at h
    rcases h with (h | h) | h <;> rw [h] <;> rfl
  simp at h3
  omega

theorem infix_token_at (s tok : List Char) (ht : isSubsamplingToken tok = true)
    (h : tok <:+: s) : ∃ i, tokenAt s i = true := by
  obtain ⟨pre, post, rfl⟩ := h
  refine ⟨pre.length, ?_⟩
  have h3 : tok.length = 3 := by
    simp only [isSubsamplingToken, Bool.or_eq_true, beq_iff_eq] at ht
    rcases ht with (h | h) | h <;> rw [h] <;> rfl
  have : ((pre ++ tok ++ post).drop pre.length).take 3 = tok := by
    simp [List.take_append_eq_append_take, h3]
  simp only [tokenAt]
  rw [this]
  exact ht

/-- C1, as stated, fails: "444,420" contains "444", and the forced-4:2:2 step yields
"422,420", in which subsampling tokens occur at positions 0 and 4. -/
theorem force422_leaves_second_token :
    "444".toList <:+: "444,420".toList ∧
    CWinSystemAmlogic.InitWindowSystem_attr true false "444,420".toList =
      Except.ok "422,420".toList ∧
    tokenAt "422,420".toList 0 = true ∧ tokenAt "422,420".toList 4 = true := by
  decide

/-- C1, amended: on an attribute string that contains "444", "422" or "420", the
forced-4:2:2 step (force-4:2:2 on, limit-8-bit off) yields a string of the same length as
the input; and when the input has a single occurrence of a subsampling token (at position
`p`) and no character '4' before it, the result contains exactly one occurrence of a
subsampling token, which is "422" (at position `p`). -/
theorem force422_same_length_single_token (attr : List Char)
    (h : "444".toList <:+: attr ∨ "422".toList <:+: attr ∨ "420".toList <:+: attr) :
    ∃ out, CWinSystemAmlogic.InitWindowSystem_attr true false attr = Except.ok out ∧
      out.length = attr.length ∧
      ∀ p, (∀ j, tokenAt attr j = true → j = p) → (∀ j, j < p → attr[j]? ≠ some '4') →
        (out.drop p).take 3 = "422".toList ∧ tokenAt out p = true ∧
        ∀ j, tokenAt out j = true → j = p := by
  have hex : ∃ i, tokenAt attr i = true := by
    rcases h with h | h | h
    · exact infix_token_at attr _ (by decide) h
    · exact infix_token_at attr _ (by decide) h
    · exact infix_token_at attr _ (by decide) h
  obtain ⟨i, hi⟩ := hex
  have hi4 := tokenAt_head attr i hi
  have hib := tokenAt_bound attr i hi
  have hfind : find attr "4".toList ≠ none := by
    intro hn
    exact find_none_never_starts _ _ hn i ((singleton_prefix_drop_iff '4' attr i).mpr hi4)
  cases hq : find attr "4".toList with
  | none => exact absurd hq hfind
  | some q =>
    have hqi : q ≤ i := by
      by_contra hlt
      exact find_some_first _ _ _ hq i (by omega)
        ((singleton_prefix_drop_iff '4' attr i).mpr hi4)
    have hq4 : attr[q]? = some '4' :=
      (singleton_prefix_drop_iff '4' attr q).mp (find_some_starts _ _ _ hq)
    have hcond : find attr "444".toList ≠ none ∨ find attr "422".toList ≠ none ∨
        find attr "420".toList ≠ none := by
      rcases h with h | h | h
      · exact Or.inl ((find_ne_none_iff_occurs _ _).mpr h)
      · exact Or.inr (Or.inl ((find_ne_none_iff_occurs _ _).mpr h))
      · exact Or.inr (Or.inr ((find_ne_none_iff_occurs _ _).mpr h))
    have hout : CWinSystemAmlogic.InitWindowSystem_attr true false attr =
        Except.ok (attr.take q ++ "422".toList ++ attr.drop (q + 3)) := by
      rw [InitWindowSystem_attr_force]
      simp only [CWinSystemAmlogic.force422Step]
      rw [if_pos hcond]
      simp only [replaceAtFind, hq, replace]
      rw [if_neg (by omega)]
    refine ⟨_, hout, ?_, ?_⟩
    · simp
      omega
    · intro p honly hfirst
      have hip : i = p := honly i hi
      have hqp : q = p := by
        by_contra hne
        exact hfirst q (by omega) hq4
      subst hqp
      have hlenp : (attr.take q).length = q := by simp; omega
      have hdrop : ∀ j, q + 3 ≤ j →
          (attr.take q ++ "422".toList ++ attr.drop (q + 3)).drop j = attr.drop j := by
        intro j hj
        rw [List.append_assoc, List.drop_append_eq_append_drop,
          List.drop_append_eq_append_drop]
        have e1 : List.drop j (List.take q attr) = [] := by
          apply List.drop_eq_nil_of_le; omega
        have e2 : List.drop (j - (List.take q attr).length) "422".toList = [] := by
          apply List.drop_eq_nil_of_le
          rw [hlenp]; show 3 ≤ j - q; omega
        rw [e1, e2, hlenp]
        simp only [List.nil_append, List.drop_drop]
        congr 1
        show q + 3 + (j - q - 3) = j
        omega
      have hat : (attr.take q ++ "422".toList ++ attr.drop (q + 3)).drop q =
          "422".toList ++ attr.drop (q + 3) := by
        rw [List.append_assoc, List.drop_append_eq_append_drop]
        have e1 : List.drop q (List.take q attr) = [] := by
          apply List.drop_eq_nil_of_le; omega
        rw [e1, hlenp]
        simp
      have htake : ((attr.take q ++ "422".toList ++ attr.drop (q + 3)).drop q).take 3 =
          "422".toList := by
        rw [hat]
        rfl
      refine ⟨htake, ?_, ?_⟩
      · simp only [tokenAt, htake]
        decide
      · intro j hj
        have h4 := tokenAt_head _ j hj
        rcases Nat.lt_or_ge j q with hlt | hge
        · exfalso
          apply hfirst j hlt
          rw [← h4, List.append_assoc, List.getElem?_append_left (by omega)]
          simp [List.getElem?_take, hlt]
        · rcases Nat.lt_or_ge j (q + 3) with hlt3 | hge3
          · by_contra hne
            have hj0 : (attr.take q ++ "422".toList ++ attr.drop (q + 3))[j]? =
                ("422".toList ++ attr.drop (q + 3))[j - q]? := by
              rw [← hat, List.getElem?_drop]
              congr 1
              omega
            rw [hj0] at h4
            have : j - q = 1 ∨ j - q = 2 := by omega
            rcases this with e | e <;> rw [e] at h4 <;> simp at h4
          · exfalso
            have : tokenAt attr j = true := by
              simp only [tokenAt] at hj ⊢
              rw [hdrop j hge3] at hj
              exact hj
            have := honly j this
            omega

theorem force422_same_length_single_token_witness :
    ∃ out, CWinSystemAmlogic.InitWindowSystem_attr true false "444,10bit".toList =
        Except.ok out ∧
      out.length = 9 ∧ (out.drop 0).take 3 = "422".toList ∧ tokenAt out 0 = true ∧
      ∀ j, tokenAt out j = true → j = 0 := by
  obtain ⟨out, h1, h2, h3⟩ :=
    force422_same_length_single_token "444,10bit".toList (Or.inl (by decide))
  refine ⟨out, h1, h2, h3 0 ?_ (by intro j hj; omega)⟩
  intro j hj
  have hb := tokenAt_bound _ j hj
  have hl : "444,10bit".toList.length = 9 := by decide
  rw [hl] at hb
  have hj7 : j < 7 := by omega
  revert hj
  interval_cases j <;> decide

/-! ## The constructor: the framebuffer name -/

/-- C10: with `FRAMEBUFFER` set to "/dev/graphics0", which does not contain "fb", the
constructor does not resolve a framebuffer name: `find` gives `npos` and `substr(npos)`
raises `std::out_of_range`. With the variable unset the name is "fb0", and with
"/dev/fb1" it is "fb1". -/
theorem constructor_throws_without_fb {F : Type} (base : WinSystem F)
    (RENDER_STEREO_MODE_OFF : Nat) :
    CWinSystemAmlogic.CWinSystemAmlogic base RENDER_STEREO_MODE_OFF
      (some "/dev/graphics0".toList) = Except.error Exn.out_of_range ∧
    CWinSystemAmlogic.framebuffer_name none = Except.ok "fb0".toList ∧
    CWinSystemAmlogic.framebuffer_name (some "/dev/fb1".toList) = Except.ok "fb1".toList := by
  have h : CWinSystemAmlogic.framebuffer_name (some "/dev/graphics0".toList) =
      Except.error Exn.out_of_range := by decide
  refine ⟨?_, by decide, by decide⟩
  simp only [CWinSystemAmlogic.CWinSystemAmlogic, h]

/-! ## configini: set followed by get -/

theorem readLine_rest_length (n : Nat) :
    ∀ (s : List Char), (CFile.readLine n s).2.length ≤ s.length := by
  induction n with
  | zero =>
    intro s
    simp [CFile.readLine]
  | succ k ih =>
    intro s
    cases s with
    | nil => simp [CFile.readLine]
    | cons c cs =>
      simp only [CFile.readLine]
      split
      · simp
      · have := ih cs
        simp only [List.length_cons]
        omega

theorem readLine_consumes (n : Nat) (c : Char) (cs : List Char) :
    (CFile.readLine (n + 1) (c :: cs)).2.length ≤ cs.length := by
  simp only [CFile.readLine]
  split
  · simp
  · exact readLine_rest_length n cs

/-- Reading with a buffer of two or more characters never runs out of calls: one call more
than the file has characters reads the same lines. -/
theorem ReadStrings_enough_calls (n : Nat) :
    ∀ (fuel : Nat) (s : List Char), s.length ≤ fuel →
      CFile.ReadStrings (n + 2) (fuel + 1) s = CFile.ReadStrings (n + 2) fuel s := by
  intro fuel
  induction fuel with
  | zero =>
    intro s h
    have : s = [] := List.length_eq_zero.mp (by omega)
    subst this
    simp [CFile.ReadStrings]
  | succ k ih =>
    intro s h
    cases s with
    | nil => simp [CFile.ReadStrings]
    | cons c cs =>
      have hc := readLine_consumes n c cs
      simp only [List.length_cons] at h
      have hstep : ∀ f, CFile.ReadStrings (n + 2) (f + 1) (c :: cs) =
          c_str (CFile.readLine (n + 1) (c :: cs)).1 ::
            CFile.ReadStrings (n + 2) f (CFile.readLine (n + 1) (c :: cs)).2 := by
        intro f
        rfl
      rw [hstep (k + 1), hstep k, ih _ (by omega)]

theorem c_str_eq_self (l : List Char) (h : Char.ofNat 0 ∉ l) : c_str l = l := by
  unfold c_str
  rw [List.takeWhile_eq_self_iff]
  intro x hx
  simp only [bne_iff_ne, ne_eq]
  intro hx0
  exact h (hx0 ▸ hx)

theorem readLine_terminated (rest : List Char) :
    ∀ (body : List Char) (n : Nat), '\n' ∉ body → body.length < n →
      CFile.readLine n (body ++ '\n' :: rest) = (body ++ ['\n'], rest) := by
  intro body
  induction body with
  | nil =>
    intro n _ hn
    cases n with
    | zero => omega
    | succ k => simp [CFile.readLine]
  | cons c b ih =>
    intro n hmem hn
    cases n with
    | zero => omega
    | succ k =>
      have hc : c ≠ '\n' := by
        intro h
        exact hmem (by simp [h])
      have hb : '\n' ∉ b := by
        intro h
        exact hmem (by simp [h])
      simp only [List.length_cons] at hn
      have e := ih k hb (by omega)
      show CFile.readLine (k + 1) (c :: (b ++ '\n' :: rest)) = _
      simp only [CFile.readLine, if_neg hc, e, List.cons_append]

theorem ReadStrings_step (L fuel : Nat) (s : List Char) (hs : s ≠ []) :
    CFile.ReadStrings L (fuel + 1) s =
      c_str (CFile.readLine (L - 1) s).1 ::
        CFile.ReadStrings L fuel (CFile.readLine (L - 1) s).2 := by
  cases s with
  | nil => exact absurd rfl hs
  | cons c cs => rfl

theorem ReadStrings_terminated :
    ∀ (lines : List (List Char)), (∀ l ∈ lines, terminatedLine l) →
      ∀ fuel, lines.length ≤ fuel → CFile.ReadStrings 1024 fuel lines.flatten = lines := by
  intro lines
  induction lines with
  | nil =>
    intro _ fuel _
    cases fuel <;> simp [CFile.ReadStrings]
  | cons l rest ih =>
    intro hwf fuel hfuel
    obtain ⟨body, hl, hnl, hnul, hlen⟩ := hwf l (by simp)
    cases fuel with
    | zero => simp at hfuel
    | succ f =>
      have hflat : (l :: rest).flatten = body ++ '\n' :: rest.flatten := by
        simp [hl]
      rw [hflat, ReadStrings_step 1024 f _ (by simp)]
      rw [readLine_terminated rest.flatten body 1023 hnl hlen]
      simp only
      rw [c_str_eq_self _ (by
        intro h
        rcases List.mem_append.mp h with h | h
        · exact hnul h
        · simp at h), ← hl]
      rw [ih (fun x hx => hwf x (by simp [hx])) f (by simpa using hfuel)]

theorem length_le_flatten_of_terminated :
    ∀ (lines : List (List Char)), (∀ l ∈ lines, terminatedLine l) →
      lines.length ≤ lines.flatten.length := by
  intro lines
  induction lines with
  | nil => intro _; simp
  | cons l rest ih =>
    intro hwf
    obtain ⟨body, hl, _, _, _⟩ := hwf l (by simp)
    have := ih (fun x hx => hwf x (by simp [hx]))
    rw [List.flatten_cons, List.length_append, List.length_cons, hl, List.length_append]
    simp only [List.length_singleton]
    omega

theorem read_terminated (lines : List (List Char)) (hne : lines ≠ [])
    (hwf : ∀ l ∈ lines, terminatedLine l) (w : Bool) :
    configini.read ⟨some lines.flatten, true, w⟩ = (true, lines) := by
  have h := ReadStrings_terminated lines hwf lines.flatten.length
    (length_le_flatten_of_terminated lines hwf)
  have hpos : 0 < lines.length := List.length_pos.mpr hne
  simp only [configini.read, h]
  simp [hpos]

theorem RemoveCRLF_starts (l : List Char) : StringUtils.RemoveCRLF l <+: l := by
  unfold StringUtils.RemoveCRLF
  have h := List.dropWhile_suffix (fun c => c == '\n' || c == '\r') (l := l.reverse)
  have h2 := List.reverse_prefix.mpr h
  simpa using h2

theorem getLoop_skip (key : List Char) (rest : List (List Char)) :
    ∀ (pre : List (List Char)),
      (∀ l ∈ pre, StringUtils.StartsWith l (StringUtils.FormatKey key) = false) →
      configini.getLoop key (pre ++ rest) = configini.getLoop key rest := by
  intro pre
  induction pre with
  | nil => intro _; rfl
  | cons l ls ih =>
    intro h
    have hl := h l (by simp)
    have hr : StringUtils.StartsWith (StringUtils.RemoveCRLF l) (StringUtils.FormatKey key) =
        false := by
      cases hs : StringUtils.StartsWith (StringUtils.RemoveCRLF l) (StringUtils.FormatKey key)
      · rfl
      · exfalso
        simp only [StringUtils.StartsWith, List.isPrefixOf_iff_prefix] at hs
        have : StringUtils.StartsWith l (StringUtils.FormatKey key) = true := by
          simp only [StringUtils.StartsWith, List.isPrefixOf_iff_prefix]
          exact hs.trans (RemoveCRLF_starts l)
        rw [hl] at this
        cases this
    simp only [List.cons_append, configini.getLoop, hr]
    exact ih (fun x hx => h x (by simp [hx]))

theorem setLoop_some (strKey newLine : List Char) (test : List Char → Bool) :
    ∀ (rev r : List (List Char)), configini.setLoop strKey newLine test rev = some r →
      ∃ pre x post, rev = pre ++ x :: post ∧ r = pre ++ newLine :: post ∧
        ∀ l ∈ pre, ¬ (find l strKey ≠ none ∧ test l = true) := by
  intro rev
  induction rev with
  | nil =>
    intro r h
    simp [configini.setLoop] at h
  | cons line rest ih =>
    intro r h
    simp only [configini.setLoop] at h
    by_cases hc : find line strKey ≠ none ∧ test line = true
    · rw [if_pos hc] at h
      cases h
      exact ⟨[], line, rest, rfl, rfl, by simp⟩
    · rw [if_neg hc] at h
      cases hq : configini.setLoop strKey newLine test rest with
      | none => simp [hq] at h
      | some r2 =>
        simp [hq] at h
        obtain ⟨pre, x, post, h1, h2, h3⟩ := ih r2 hq
        refine ⟨line :: pre, x, post, by simp [h1], by simp [← h, h2], ?_⟩
        intro l hl
        rcases List.mem_cons.mp hl with rfl | hl2
        · exact hc
        · exact h3 l hl2

theorem setLoop_none (strKey newLine : List Char) (test : List Char → Bool) :
    ∀ (rev : List (List Char)), configini.setLoop strKey newLine test rev = none →
      ∀ l ∈ rev, ¬ (find l strKey ≠ none ∧ test l = true) := by
  intro rev
  induction rev with
  | nil =>
    intro _ l hl
    simp at hl
  | cons line rest ih =>
    intro h l hl
    simp only [configini.setLoop] at h
    by_cases hc : find line strKey ≠ none ∧ test line = true
    · rw [if_pos hc] at h
      cases h
    · rw [if_neg hc] at h
      have hq : configini.setLoop strKey newLine test rest = none := by
        cases hq : configini.setLoop strKey newLine test rest with
        | none => rfl
        | some r2 => simp [hq] at h
      rcases List.mem_cons.mp hl with rfl | hl2
      · exact hc
      · exact ih hq l hl2

theorem not_active_of_not_both (l strKey : List Char)
    (h : ¬ (find l strKey ≠ none ∧ StringUtils.StartsWith l strKey = true)) :
    StringUtils.StartsWith l strKey = false := by
  cases hs : StringUtils.StartsWith l strKey
  · rfl
  · exfalso
    apply h
    refine ⟨?_, hs⟩
    simp only [StringUtils.StartsWith, List.isPrefixOf_iff_prefix] at hs
    exact (find_ne_none_iff_occurs l strKey).mpr hs.isInfix

theorem find_first_char (c : Char) (rest : List Char) :
    ∀ (key : List Char), c ∉ key → find (key ++ c :: rest) [c] = some key.length := by
  intro key
  induction key with
  | nil =>
    intro _
    simp [find]
  | cons k ks ih =>
    intro h
    have hk : c ≠ k := by
      intro e
      exact h (by simp [e])
    have hks : c ∉ ks := by
      intro e
      exact h (by simp [e])
    have hp : ([c].isPrefixOf (k :: (ks ++ c :: rest))) = false := by
      simp [List.isPrefixOf, hk]
    show find (k :: (ks ++ c :: rest)) [c] = _
    unfold find
    rw [hp]
    simp [ih hks]

theorem eraseRemove_eq_self (s : List Char) (c : Char) (h : c ∉ s) : eraseRemove s c = s := by
  unfold eraseRemove
  rw [List.filter_eq_self]
  intro a ha
  simp only [bne_iff_ne, ne_eq]
  intro e
  exact h (e ▸ ha)

theorem eraseRemove_not_mem (s : List Char) (c : Char) : c ∉ eraseRemove s c := by
  unfold eraseRemove
  intro h
  have := (List.mem_filter.mp h).2
  simp at this

theorem mem_of_mem_eraseRemove (s : List Char) (c d : Char) (h : d ∈ eraseRemove s c) :
    d ∈ s := by
  unfold eraseRemove at h
  exact (List.mem_filter.mp h).1

theorem eraseRemove_length_le (s : List Char) (c : Char) :
    (eraseRemove s c).length ≤ s.length := by
  unfold eraseRemove
  exact List.length_filter_le _ _

theorem FormatLine_eq (key v : List Char) (hk : Char.ofNat 0 ∉ key) (hv : Char.ofNat 0 ∉ v) :
    StringUtils.FormatLine key v = (key ++ '=' :: '\'' :: (v ++ ['\''])) ++ ['\n'] := by
  simp [StringUtils.FormatLine, c_str_eq_self key hk, c_str_eq_self v hv]

theorem getLoop_hit (key v : List Char) (rest : List (List Char))
    (hk0 : Char.ofNat 0 ∉ key) (hkeq : '=' ∉ key)
    (hv0 : Char.ofNat 0 ∉ v) (hvd : '\"' ∉ v) (hvs : '\'' ∉ v) :
    configini.getLoop key (StringUtils.FormatLine key v :: rest) = some v := by
  have hrm : StringUtils.RemoveCRLF (StringUtils.FormatLine key v) =
      key ++ '=' :: '\'' :: (v ++ ['\'']) := by
    rw [FormatLine_eq key v hk0 hv0]
    simp [StringUtils.RemoveCRLF, List.dropWhile]
  have hst : StringUtils.StartsWith (key ++ '=' :: '\'' :: (v ++ ['\'']))
      (StringUtils.FormatKey key) = true := by
    simp [StringUtils.StartsWith, StringUtils.FormatKey, c_str_eq_self key hk0,
      List.cons_prefix_cons]
  have hfind := find_first_char '=' ('\'' :: (v ++ ['\''])) key hkeq
  have hsplit : StringUtils.Split2 (key ++ '=' :: '\'' :: (v ++ ['\''])) =
      [key, '\'' :: (v ++ ['\''])] := by
    unfold StringUtils.Split2
    rw [if_neg (by simp)]
    have : "=".toList = ['='] := rfl
    rw [this, hfind]
    simp
  have hq1 : eraseRemove ('\'' :: (v ++ ['\''])) '\"' = '\'' :: (v ++ ['\'']) := by
    apply eraseRemove_eq_self
    simp [hvd]
  have hq2 : eraseRemove ('\'' :: (v ++ ['\''])) '\'' = v := by
    have := eraseRemove_eq_self v '\'' hvs
    unfold eraseRemove at this ⊢
    simp [List.filter_cons, List.filter_append, this]
  simp only [configini.getLoop, hrm, hst, hsplit]
  simp [hq1, hq2]

theorem setLines_shape (lines : List (List Char)) (key val : List Char) :
    ∃ pre post, (configini.setLines lines key val).reverse =
        pre ++ StringUtils.FormatLine key (eraseRemove (eraseRemove val '\"') '\'') :: post ∧
      (∀ l ∈ pre, StringUtils.StartsWith l (StringUtils.FormatKey key) = false) ∧
      (∀ l ∈ pre, l ∈ lines) ∧ (∀ l ∈ post, l ∈ lines) := by
  simp only [configini.setLines]
  cases h1 : configini.setLoop (StringUtils.FormatKey key)
      (StringUtils.FormatLine key (eraseRemove (eraseRemove val '\"') '\''))
      (fun l => StringUtils.StartsWith l (StringUtils.FormatKey key)) lines.reverse with
  | some r =>
    obtain ⟨pre, x, post, hrev, hr, hpre⟩ := setLoop_some _ _ _ _ _ h1
    refine ⟨pre, post, by simp [hr], ?_, ?_, ?_⟩
    · intro l hl
      exact not_active_of_not_both l _ (hpre l hl)
    · intro l hl
      have : l ∈ lines.reverse := by rw [hrev]; simp [hl]
      simpa using this
    · intro l hl
      have : l ∈ lines.reverse := by rw [hrev]; simp [hl]
      simpa using this
  | none =>
    have hnone := setLoop_none _ _ _ _ h1
    cases h2 : configini.setLoop (StringUtils.FormatKey key)
        (StringUtils.FormatLine key (eraseRemove (eraseRemove val '\"') '\''))
        (fun l => StringUtils.StartsWith l "#".toList) lines.reverse with
    | some r =>
      obtain ⟨pre, x, post, hrev, hr, _⟩ := setLoop_some _ _ _ _ _ h2
      refine ⟨pre, post, by simp [hr], ?_, ?_, ?_⟩
      · intro l hl
        have hmem : l ∈ lines.reverse := by rw [hrev]; simp [hl]
        exact not_active_of_not_both l _ (hnone l hmem)
      · intro l hl
        have : l ∈ lines.reverse := by rw [hrev]; simp [hl]
        simpa using this
      · intro l hl
        have : l ∈ lines.reverse := by rw [hrev]; simp [hl]
        simpa using this
    | none =>
      refine ⟨[], lines.reverse, by simp, by simp, by simp, ?_⟩
      intro l hl
      simpa using hl

/-- On a config.ini whose lines all end in a line feed and fit the read buffer, `get(key)`
after `set(key, val)` returns `val` without its quote characters, for a key without `=`,
line feed and NUL and a value without line feed and NUL, when the line written for them
fits the read buffer. -/
theorem set_get_round_trip_on_terminated_lines (lines : List (List Char))
    (key val def_no_value : List Char)
    (hne : lines ≠ []) (hwf : ∀ l ∈ lines, terminatedLine l)
    (hkeq : '=' ∉ key) (hkn : '\n' ∉ key) (hk0 : Char.ofNat 0 ∉ key)
    (hvn : '\n' ∉ val) (hv0 : Char.ofNat 0 ∉ val)
    (hlen : key.length + val.length + 4 ≤ 1023) :
    configini.get (configini.set ⟨some lines.flatten, true, true⟩ key val) key def_no_value =
      eraseRemove (eraseRemove val '\"') '\'' := by
  have hv0' : Char.ofNat 0 ∉ eraseRemove (eraseRemove val '\"') '\'' := fun h =>
    hv0 (mem_of_mem_eraseRemove _ _ _ (mem_of_mem_eraseRemove _ _ _ h))
  have hvn' : '\n' ∉ eraseRemove (eraseRemove val '\"') '\'' := fun h =>
    hvn (mem_of_mem_eraseRemove _ _ _ (mem_of_mem_eraseRemove _ _ _ h))
  have hvd' : '\"' ∉ eraseRemove (eraseRemove val '\"') '\'' := fun h =>
    eraseRemove_not_mem val '\"' (mem_of_mem_eraseRemove _ _ _ h)
  have hvs' : '\'' ∉ eraseRemove (eraseRemove val '\"') '\'' :=
    eraseRemove_not_mem _ '\''
  have hvl : (eraseRemove (eraseRemove val '\"') '\'').length ≤ val.length :=
    (eraseRemove_length_le _ _).trans (eraseRemove_length_le _ _)
  have hnl : terminatedLine
      (StringUtils.FormatLine key (eraseRemove (eraseRemove val '\"') '\'')) := by
    refine ⟨key ++ '=' :: '\'' :: (eraseRemove (eraseRemove val '\"') '\'' ++ ['\'']),
      FormatLine_eq key _ hk0 hv0', ?_, ?_, ?_⟩
    · simp [hkn, hvn']
    · simp [hk0, hv0']
    · simp
      omega
  obtain ⟨pre, post, hshape, hpre, hpremem, hpostmem⟩ := setLines_shape lines key val
  have hmem : ∀ l ∈ configini.setLines lines key val, terminatedLine l := by
    intro l hl
    have : l ∈ (configini.setLines lines key val).reverse := by simpa using hl
    rw [hshape] at this
    rcases List.mem_append.mp this with h | h
    · exact hwf l (hpremem l h)
    · rcases List.mem_cons.mp h with rfl | h2
      · exact hnl
      · exact hwf l (hpostmem l h2)
  have hne2 : configini.setLines lines key val ≠ [] := by
    intro h
    rw [h] at hshape
    simp at hshape
  have hset : configini.set ⟨some lines.flatten, true, true⟩ key val =
      ⟨some (configini.setLines lines key val).flatten, true, true⟩ := by
    simp only [configini.set, read_terminated lines hne hwf true]
    simp
  rw [hset]
  simp only [configini.get, read_terminated _ hne2 hmem true]
  rw [hshape, getLoop_skip key _ pre hpre, getLoop_hit key _ post hk0 hkeq hv0' hvd' hvs']
  simp

/-- C9: on a config.ini that holds the single line "vout=1080p" without a trailing newline,
`set("cec", "1")` writes "vout=1080pcec='1'" followed by a newline, and `get("cec")` then
returns its default, the empty string, not "1". When the line ends in a newline, the same
calls return "1". -/
theorem set_get_after_unterminated_last_line :
    (configini.set ⟨some "vout=1080p".toList, true, true⟩ "cec".toList "1".toList).content =
      some "vout=1080pcec='1'\n".toList ∧
    configini.get
      (configini.set ⟨some "vout=1080p".toList, true, true⟩ "cec".toList "1".toList)
      "cec".toList [] = [] ∧
    eraseRemove (eraseRemove "1".toList '\"') '\'' = "1".toList ∧
    configini.get
      (configini.set ⟨some "vout=1080p\n".toList, true, true⟩ "cec".toList "1".toList)
      "cec".toList [] = "1".toList := by
  decide

/-! ## UpdateResolutions -/

theorem updateLoop_slots {F : Type} (X : External F) (resDesktop : RESOLUTION_INFO F) :
    ∀ (rs slots : List (RESOLUTION_INFO F)) (idx : Nat) (rd : Option Nat),
      idx ≤ slots.length →
      (CWinSystemAmlogic.updateLoop X resDesktop rs slots idx rd).1 =
        slots.take idx ++ rs.map (ResetOverscan X) ++ slots.drop (idx + rs.length) := by
  intro rs
  induction rs with
  | nil =>
    intro slots idx rd _
    simp [CWinSystemAmlogic.updateLoop]
  | cons r rest ih =>
    intro slots idx rd hle
    simp only [CWinSystemAmlogic.updateLoop, CDisplaySettings.AddResolutionInfo,
      CDisplaySettings.SetResolutionInfo]
    rcases Nat.lt_or_ge idx slots.length with hlt | hge
    · rw [if_neg (by omega)]
      rw [ih _ _ _ (by simp; omega)]
      rw [List.set_eq_take_append_cons_drop, if_pos hlt]
      have e1 : (List.take idx slots).length = idx := by simp; omega
      have t1 : List.take (idx + 1) (List.take idx slots ++ ResetOverscan X r ::
          List.drop (idx + 1) slots) = List.take idx slots ++ [ResetOverscan X r] := by
        rw [List.take_append_eq_append_take, e1]
        simp [List.take_take]
      have d1 : List.drop (idx + 1 + rest.length) (List.take idx slots ++ ResetOverscan X r ::
          List.drop (idx + 1) slots) = List.drop (idx + (rest.length + 1)) slots := by
        rw [List.drop_append_eq_append_drop, e1]
        have : List.drop (idx + 1 + rest.length) (List.take idx slots) = [] := by
          apply List.drop_eq_nil_of_le; omega
        rw [this]
        have e2 : idx + 1 + rest.length - idx = rest.length + 1 := by omega
        rw [e2]
        simp only [List.nil_append, List.drop_succ_cons, List.drop_drop]
        congr 1
        omega
      rw [t1, d1]
      simp
    · have hidx : idx = slots.length := by omega
      subst hidx
      rw [if_pos (le_refl _)]
      rw [ih _ _ _ (by simp)]
      have s1 : (slots ++ [X.defaultInfo]).set slots.length (ResetOverscan X r) =
          slots ++ [ResetOverscan X r] := by
        rw [List.set_append_right _ _ (le_refl _)]
        simp
      rw [s1]
      have t1 : List.take (slots.length + 1) (slots ++ [ResetOverscan X r]) =
          slots ++ [ResetOverscan X r] := by
        apply List.take_of_length_le; simp
      have d1 : List.drop (slots.length + 1 + rest.length) (slots ++ [ResetOverscan X r]) =
          [] := by
        apply List.drop_eq_nil_of_le; simp
      have d2 : List.drop (slots.length + (r :: rest).length) slots = [] := by
        apply List.drop_eq_nil_of_le; simp
      rw [t1, d1, d2]
      simp

theorem updateLoop_index_of_some {F : Type} (X : External F) (resDesktop : RESOLUTION_INFO F) :
    ∀ (rs slots : List (RESOLUTION_INFO F)) (idx : Nat) (rd : Option Nat) (j : Nat),
      (CWinSystemAmlogic.updateLoop X resDesktop rs slots idx rd).2 = some j →
      rd = some j ∨ ∃ k d, rs[k]? = some d ∧ j = idx + k ∧
        CWinSystemAmlogic.matchesDesktop X resDesktop (ResetOverscan X d) = true := by
  intro rs
  induction rs with
  | nil =>
    intro slots idx rd j h
    simp only [CWinSystemAmlogic.updateLoop] at h
    exact Or.inl h
  | cons r rest ih =>
    intro slots idx rd j h
    simp only [CWinSystemAmlogic.updateLoop] at h
    rcases ih _ _ _ _ h with h1 | ⟨k, d, hk, hj, hm⟩
    · by_cases hm : CWinSystemAmlogic.matchesDesktop X resDesktop (ResetOverscan X r) = true
      · rw [if_pos hm] at h1
        cases h1
        exact Or.inr ⟨0, r, by simp, by simp, hm⟩
      · rw [if_neg hm] at h1
        exact Or.inl h1
    · exact Or.inr ⟨k + 1, d, by simpa using hk, by omega, hm⟩

theorem updateLoop_index_keeps_some {F : Type} (X : External F)
    (resDesktop : RESOLUTION_INFO F) :
    ∀ (rs slots : List (RESOLUTION_INFO F)) (idx : Nat) (rd : Option Nat),
      rd ≠ none → (CWinSystemAmlogic.updateLoop X resDesktop rs slots idx rd).2 ≠ none := by
  intro rs
  induction rs with
  | nil =>
    intro slots idx rd h
    simpa [CWinSystemAmlogic.updateLoop] using h
  | cons r rest ih =>
    intro slots idx rd h
    simp only [CWinSystemAmlogic.updateLoop]
    apply ih
    split
    · simp
    · exact h

theorem updateLoop_index_none {F : Type} (X : External F) (resDesktop : RESOLUTION_INFO F) :
    ∀ (rs slots : List (RESOLUTION_INFO F)) (idx : Nat),
      (∀ d ∈ rs, CWinSystemAmlogic.matchesDesktop X resDesktop (ResetOverscan X d) = false) →
      (CWinSystemAmlogic.updateLoop X resDesktop rs slots idx none).2 = none := by
  intro rs
  induction rs with
  | nil =>
    intro slots idx _
    simp [CWinSystemAmlogic.updateLoop]
  | cons r rest ih =>
    intro slots idx h
    simp only [CWinSystemAmlogic.updateLoop]
    have hr := h r (by simp)
    rw [hr]
    simp only [Bool.false_eq_true, if_false]
    apply ih
    intro d hd
    exact h d (by simp [hd])

theorem updateLoop_index_some_of_match {F : Type} (X : External F)
    (resDesktop : RESOLUTION_INFO F) :
    ∀ (rs slots : List (RESOLUTION_INFO F)) (idx : Nat) (rd : Option Nat),
      (∃ d ∈ rs, CWinSystemAmlogic.matchesDesktop X resDesktop (ResetOverscan X d) = true) →
      (CWinSystemAmlogic.updateLoop X resDesktop rs slots idx rd).2 ≠ none := by
  intro rs
  induction rs with
  | nil =>
    intro slots idx rd h
    obtain ⟨d, hd, _⟩ := h
    simp at hd
  | cons r rest ih =>
    intro slots idx rd h
    simp only [CWinSystemAmlogic.updateLoop]
    by_cases hm : CWinSystemAmlogic.matchesDesktop X resDesktop (ResetOverscan X r) = true
    · apply updateLoop_index_keeps_some
      rw [if_pos hm]
      simp
    · apply ih
      obtain ⟨d, hd, hmd⟩ := h
      rcases List.mem_cons.mp hd with rfl | hd2
      · exact absurd hmd hm
      · exact ⟨d, hd2, hmd⟩

theorem matchesDesktop_ResetOverscan {F : Type} (X : External F)
    (resDesktop d : RESOLUTION_INFO F) :
    CWinSystemAmlogic.matchesDesktop X resDesktop (ResetOverscan X d) =
      CWinSystemAmlogic.matchesDesktop X resDesktop d := by
  simp [CWinSystemAmlogic.matchesDesktop, ResetOverscan]

theorem stored_probed_getElem {F : Type} (X : External F)
    (base probed : List (RESOLUTION_INFO F)) (RD k : Nat) (d : RESOLUTION_INFO F)
    (h : RD ≤ base.length) (hk : probed[k]? = some d) :
    (base.take RD ++ probed.map (ResetOverscan X) ++ base.drop (RD + probed.length))[RD + k]? =
      some (ResetOverscan X d) := by
  have hklt : k < probed.length := by
    by_contra hge
    have : probed[k]? = none := List.getElem?_eq_none (by omega)
    rw [this] at hk
    cases hk
  have e1 : (List.take RD base).length = RD := by simp; omega
  rw [List.append_assoc, List.getElem?_append_right (by omega), e1]
  have e2 : RD + k - RD = k := by omega
  rw [e2, List.getElem?_append_left (by simpa using hklt)]
  simp [hk]

/-- C3, as stated, fails: with `RES_DESKTOP` = 16, seventeen stored slots holding
1920x1080 at 60 Hz, the live mode 1920x1080 at 60 Hz and the probed modes 1280x720 at 50 Hz
and 3840x2160 at 30 Hz, neither of which matches the live mode, the desktop slot holds
1920x1080 at 60 Hz before the call and the first probed mode, 1280x720 at 50 Hz, after it. -/
theorem desktop_slot_overwritten_without_match :
    (∀ d ∈ [mode720p50, mode2160p30],
      CWinSystemAmlogic.matchesDesktop sampleExternal mode1080p60 d = false) ∧
    sampleSlots[sampleExternal.RES_DESKTOP]? = some mode1080p60 ∧
    (CWinSystemAmlogic.UpdateResolutions sampleExternal sampleSlots
      [mode720p50, mode2160p30] (some mode1080p60))[sampleExternal.RES_DESKTOP]? =
        some mode720p50 ∧
    mode720p50 ≠ mode1080p60 := by
  decide

/-- C3, amended: when the desktop slot exists and none of the N probed descriptors matches
the live mode (the default descriptor when the live mode cannot be read), UpdateResolutions
stores probed descriptor number i, with its overscan reset, in slot RES_DESKTOP + i, for
every i below N, and leaves all other slots as they were; so the desktop slot itself
receives the first probed descriptor, and keeps its content only when N is 0. -/
theorem update_without_match_stores_from_desktop_slot {F : Type} (X : External F)
    (slots probed : List (RESOLUTION_INFO F)) (native : Option (RESOLUTION_INFO F))
    (hslot : X.RES_DESKTOP < (X.baseUpdateResolutions slots).length)
    (hno : ∀ d ∈ probed,
      CWinSystemAmlogic.matchesDesktop X (native.getD X.defaultInfo) d = false) :
    CWinSystemAmlogic.UpdateResolutions X slots probed native =
      (X.baseUpdateResolutions slots).take X.RES_DESKTOP ++ probed.map (ResetOverscan X) ++
        (X.baseUpdateResolutions slots).drop (X.RES_DESKTOP + probed.length) ∧
    (∀ i d, probed[i]? = some d →
      (CWinSystemAmlogic.UpdateResolutions X slots probed native)[X.RES_DESKTOP + i]? =
        some (ResetOverscan X d)) ∧
    (probed = [] →
      CWinSystemAmlogic.UpdateResolutions X slots probed native =
        X.baseUpdateResolutions slots) := by
  have hclosed : CWinSystemAmlogic.UpdateResolutions X slots probed native =
      (X.baseUpdateResolutions slots).take X.RES_DESKTOP ++ probed.map (ResetOverscan X) ++
        (X.baseUpdateResolutions slots).drop (X.RES_DESKTOP + probed.length) := by
    cases native with
    | none =>
      have hnone := updateLoop_index_none X X.defaultInfo probed
        (X.baseUpdateResolutions slots) X.RES_DESKTOP
        (by intro d hd; rw [matchesDesktop_ResetOverscan]; exact hno d hd)
      simp only [CWinSystemAmlogic.UpdateResolutions, hnone]
      exact updateLoop_slots X X.defaultInfo probed (X.baseUpdateResolutions slots)
        X.RES_DESKTOP none (by omega)
    | some curDisplay =>
      have hnone := updateLoop_index_none X curDisplay probed
        (X.baseUpdateResolutions slots) X.RES_DESKTOP
        (by intro d hd; rw [matchesDesktop_ResetOverscan]; exact hno d hd)
      simp only [CWinSystemAmlogic.UpdateResolutions, hnone]
      exact updateLoop_slots X curDisplay probed (X.baseUpdateResolutions slots)
        X.RES_DESKTOP none (by omega)
  refine ⟨hclosed, ?_, ?_⟩
  · intro i d hi
    rw [hclosed]
    exact stored_probed_getElem X _ probed _ i d (by omega) hi
  · intro hp
    rw [hclosed, hp]
    simp

theorem update_without_match_stores_from_desktop_slot_witness :
    CWinSystemAmlogic.UpdateResolutions sampleExternal sampleSlots
      [mode720p50, mode2160p30] (some mode1080p60) =
        List.replicate 16 mode1080p60 ++ [mode720p50, mode2160p30] :=
  (update_without_match_stores_from_desktop_slot sampleExternal sampleSlots
    [mode720p50, mode2160p30] (some mode1080p60) (by decide) (by decide)).1

/-- C4: when the live mode is read and at least one probed descriptor matches it (equal
width, height, screen width, screen height and mode-mask flag bits, refresh rates closer
than the epsilon), after UpdateResolutions the desktop slot holds a probed descriptor, with
its overscan reset, that matches the live mode. -/
theorem desktop_slot_holds_matching_mode {F : Type} (X : External F)
    (slots probed : List (RESOLUTION_INFO F)) (curDisplay : RESOLUTION_INFO F)
    (hslot : X.RES_DESKTOP ≤ (X.baseUpdateResolutions slots).length)
    (hmatch : ∃ d ∈ probed, CWinSystemAmlogic.matchesDesktop X curDisplay d = true) :
    ∃ d ∈ probed, CWinSystemAmlogic.matchesDesktop X curDisplay d = true ∧
      (CWinSystemAmlogic.UpdateResolutions X slots probed (some curDisplay))[X.RES_DESKTOP]? =
        some (ResetOverscan X d) := by
  have hsome := updateLoop_index_some_of_match X curDisplay probed
    (X.baseUpdateResolutions slots) X.RES_DESKTOP none
    (by
      obtain ⟨d, hd, hm⟩ := hmatch
      exact ⟨d, hd, by rw [matchesDesktop_ResetOverscan]; exact hm⟩)
  cases hj : (CWinSystemAmlogic.updateLoop X curDisplay probed
      (X.baseUpdateResolutions slots) X.RES_DESKTOP none).2 with
  | none => exact absurd hj hsome
  | some j =>
    rcases updateLoop_index_of_some X curDisplay probed _ _ _ j hj with h0 | ⟨k, d, hk, hjk, hm⟩
    · cases h0
    · have hmem : d ∈ probed := List.getElem?_mem hk
      rw [matchesDesktop_ResetOverscan] at hm
      refine ⟨d, hmem, hm, ?_⟩
      have hL := updateLoop_slots X curDisplay probed (X.baseUpdateResolutions slots)
        X.RES_DESKTOP none hslot
      have hget := stored_probed_getElem X (X.baseUpdateResolutions slots) probed
        X.RES_DESKTOP k d hslot hk
      have hklt : k < probed.length := by
        by_contra hge
        have : probed[k]? = none := List.getElem?_eq_none (by omega)
        rw [this] at hk
        cases hk
      simp only [CWinSystemAmlogic.UpdateResolutions, hj,
        CDisplaySettings.SetResolutionInfo, CDisplaySettings.GetResolutionInfo]
      rw [hL, hjk, List.getD_eq_getElem?_getD, hget]
      have hlen : X.RES_DESKTOP < (List.take X.RES_DESKTOP (X.baseUpdateResolutions slots) ++
          List.map (ResetOverscan X) probed ++
          List.drop (X.RES_DESKTOP + probed.length) (X.baseUpdateResolutions slots)).length := by
        simp
        omega
      exact List.getElem?_set_self hlen

theorem desktop_slot_holds_matching_mode_witness :
    ∃ d ∈ [mode720p50, mode1080p60, mode2160p30],
      CWinSystemAmlogic.matchesDesktop sampleExternal mode1080p60 d = true ∧
      (CWinSystemAmlogic.UpdateResolutions sampleExternal sampleSlots
        [mode720p50, mode1080p60, mode2160p30]
        (some mode1080p60))[sampleExternal.RES_DESKTOP]? =
          some (ResetOverscan sampleExternal d) :=
  desktop_slot_holds_matching_mode sampleExternal sampleSlots
    [mode720p50, mode1080p60, mode2160p30] mode1080p60 (by decide)
    ⟨mode1080p60, by decide, by decide⟩

/-! ## CreateNewWindow -/

theorem notifyLoop_quiet (capacity : Nat) (handler : IDispResource → List RegistryCall)
    (hq : ∀ r, handler r = []) :
    ∀ (fuel i : Nat) (m : List IDispResource), i ≤ m.length → m.length ≤ i + fuel →
      CWinSystemAmlogic.notifyLoop capacity handler fuel i m = Run.done (m, m.drop i) := by
  intro fuel
  induction fuel with
  | zero =>
    intro i m h1 h2
    have hi : i = m.length := by omega
    simp only [CWinSystemAmlogic.notifyLoop]
    rw [if_pos hi, List.drop_eq_nil_of_le (by omega)]
  | succ n ih =>
    intro i m h1 h2
    simp only [CWinSystemAmlogic.notifyLoop]
    by_cases hi : i = m.length
    · rw [if_pos hi, List.drop_eq_nil_of_le (by omega)]
    · rw [if_neg hi]
      have hlt : i < m.length := by omega
      have hget : m.get? i = some m[i] := List.get?_eq_get hlt
      simp only [hget, hq, CWinSystemAmlogic.applyCalls]
      rw [ih (i + 1) m (by omega) (by omega)]
      simp only
      rw [List.drop_eq_getElem_cons hlt]

/-- A handler that unregisters its own resource invalidates the iterator that stands on it:
the pass over a registry holding resource 1 alone has no defined behaviour. -/
theorem self_unregistering_handler_is_undefined (capacity fuel : Nat) :
    CWinSystemAmlogic.notifyLoop capacity unregistersItself (fuel + 1) 0 [1] =
      Run.undefined := by
  simp [CWinSystemAmlogic.notifyLoop, CWinSystemAmlogic.applyCalls, unregistersItself]

/-- A delay of 50000000 gives a product beyond the range of `unsigned int`; the timer
receives 705032704. -/
theorem timerArgument_wraps :
    CWinSystemAmlogic.timerArgument 3 = 300 ∧
    CWinSystemAmlogic.timerArgument 50000000 = 705032704 := by
  decide

theorem noNeedToCreate_sizes {F : Type} (X : External F) (s : WinSystem F) (C : CallContext F)
    (fullScreen : Bool) (res : RESOLUTION_INFO F) (w h dw dh : Int) (f : F) :
    CWinSystemAmlogic.noNeedToCreate X
      { s with m_nWidth := w, m_nHeight := h, m_displayWidth := dw, m_displayHeight := dh,
               m_fRefreshRate := f } C fullScreen res =
      CWinSystemAmlogic.noNeedToCreate X s C fullScreen res := rfl

theorem CreateNewWindow_state {F : Type} (X : External F) (fuel : Nat) (s : WinSystem F)
    (C : CallContext F) (fullScreen : Bool) (res : RESOLUTION_INFO F) (out : Outcome F)
    (h : CWinSystemAmlogic.CreateNewWindow X fuel s C fullScreen res = Run.done out) :
    out.state.m_bWindowCreated = s.m_bWindowCreated ∧
    out.state.m_bFullScreen = fullScreen ∧
    out.state.m_stereo_mode = C.stereo_mode ∧
    out.state.m_nWidth = res.iWidth ∧ out.state.m_nHeight = res.iHeight ∧
    out.state.m_displayWidth = res.iScreenWidth ∧
    out.state.m_displayHeight = res.iScreenHeight ∧
    out.state.m_fRefreshRate = res.fRefreshRate := by
  simp only [CWinSystemAmlogic.CreateNewWindow, noNeedToCreate_sizes] at h
  by_cases hn : CWinSystemAmlogic.noNeedToCreate X s C fullScreen res = true
  · rw [if_pos hn] at h
    cases h
    have hn2 := hn
    simp only [CWinSystemAmlogic.noNeedToCreate] at hn2
    split at hn2
    · cases hn2
    · simp only [Bool.and_eq_true, decide_eq_true_eq, beq_iff_eq] at hn2
      simp [hn2.1.1.1.2, hn2.2]
  · rw [if_neg hn] at h
    by_cases hd : C.delay > 0
    · simp only [hd, if_true] at h
      cases hl : CWinSystemAmlogic.notifyLoop C.resources_capacity C.onLostDisplay fuel 0
          s.m_resources with
      | undefined => simp [hl] at h
      | unfinished => simp [hl] at h
      | done p =>
        simp [hl] at h
        rw [← h]
        simp
    · simp only [hd, if_false] at h
      cases hl : CWinSystemAmlogic.notifyLoop C.resources_capacity C.onLostDisplay fuel 0
          s.m_resources with
      | undefined => simp [hl] at h
      | unfinished => simp [hl] at h
      | done p =>
        simp only [hl] at h
        cases hr : s.m_delayDispReset with
        | true =>
          simp [hr] at h
          rw [← h]
          simp
        | false =>
          simp only [hr] at h
          cases hl2 : CWinSystemAmlogic.notifyLoop C.resources_capacity C.onResetDisplay
              fuel 0 p.1 with
          | undefined => simp [hl2] at h
          | unfinished => simp [hl2] at h
          | done q =>
            simp [hl2] at h
            rw [← h]
            simp

/-- C5, as stated, fails: on a window system whose flag `m_bWindowCreated` is not set,
CreateNewWindow is called twice with the same descriptor (1920x1080 at 60 Hz), fullscreen
flag and stereo mode while the live mode equals the descriptor; the second call still
switches the hardware mode. -/
theorem second_call_switches_mode_without_window_flag :
    ((CWinSystemAmlogic.CreateNewWindow sampleExternal 0 sampleWinSystem
        (sampleContext 0 quietHandler quietHandler) true mode1080p60).andThen
      (fun first => CWinSystemAmlogic.CreateNewWindow sampleExternal 0 first.state
        (sampleContext 0 quietHandler quietHandler) true mode1080p60)).andThen
      (fun second => Run.done second.events) =
    Run.done [Event.aml_set_native_resolution mode1080p60 "fb0".toList 0] := by
  decide

/-- C5, amended: if CreateNewWindow is called twice in succession with the same descriptor,
fullscreen flag and stereo mode, the first call returns, the flag `m_bWindowCreated` is set
(CreateNewWindow does not set it), and the live mode is read during the second call and
equals the descriptor in width, height, screen width, screen height, mode-mask flag bits
and, by `==`, refresh rate, then the second call makes no call of
aml_set_native_resolution, calls no OnLostDisplay and no OnResetDisplay handler, leaves the
window system as it is and returns true. -/
theorem second_identical_call_short_circuits {F : Type} (X : External F) (fuel1 fuel2 : Nat)
    (s : WinSystem F) (C1 C2 : CallContext F) (fullScreen : Bool)
    (res current_resolution : RESOLUTION_INFO F) (first : Outcome F)
    (hfirst : CWinSystemAmlogic.CreateNewWindow X fuel1 s C1 fullScreen res = Run.done first)
    (hstereo : C2.stereo_mode = C1.stereo_mode)
    (hcreated : s.m_bWindowCreated = true)
    (hnative : C2.native_resolution = some current_resolution)
    (hw : current_resolution.iWidth = res.iWidth)
    (hh : current_resolution.iHeight = res.iHeight)
    (hsw : current_resolution.iScreenWidth = res.iScreenWidth)
    (hsh : current_resolution.iScreenHeight = res.iScreenHeight)
    (hrate : X.floatEq current_resolution.fRefreshRate res.fRefreshRate = true)
    (hflags : current_resolution.dwFlags &&& X.D3DPRESENTFLAG_MODEMASK =
      res.dwFlags &&& X.D3DPRESENTFLAG_MODEMASK) :
    CWinSystemAmlogic.CreateNewWindow X fuel2 first.state C2 fullScreen res =
      Run.done { state := first.state, events := [], ret := true } := by
  obtain ⟨h1, h2, h3, h4, h5, h6, h7, h8⟩ :=
    CreateNewWindow_state X fuel1 s C1 fullScreen res first hfirst
  have hn : CWinSystemAmlogic.noNeedToCreate X first.state C2 fullScreen res = true := by
    simp only [CWinSystemAmlogic.noNeedToCreate, h1, hcreated, hnative, if_true]
    simp [hw, hh, hsw, hsh, hrate, hflags, h2, h3, hstereo]
  simp only [CWinSystemAmlogic.CreateNewWindow, noNeedToCreate_sizes]
  rw [if_pos hn]
  cases hst : first.state
  simp only [hst] at h4 h5 h6 h7 h8
  simp [← h4, ← h5, ← h6, ← h7, ← h8]

theorem second_identical_call_short_circuits_witness :
    CWinSystemAmlogic.CreateNewWindow sampleExternal 0
        { sampleWinSystem with
          m_nWidth := 1920, m_nHeight := 1080, m_displayWidth := 1920,
          m_displayHeight := 1080, m_fRefreshRate := 60000,
          m_bWindowCreated := true, m_bFullScreen := true }
        (sampleContext 0 quietHandler quietHandler) true mode1080p60 =
      Run.done
        { state := { sampleWinSystem with
            m_nWidth := 1920, m_nHeight := 1080, m_displayWidth := 1920,
            m_displayHeight := 1080, m_fRefreshRate := 60000,
            m_bWindowCreated := true, m_bFullScreen := true },
          events := [], ret := true } :=
  second_identical_call_short_circuits sampleExternal 0 0
    { sampleWinSystem with m_bWindowCreated := true }
    (sampleContext 0 quietHandler quietHandler) (sampleContext 0 quietHandler quietHandler)
    true mode1080p60 mode1080p60
    { state := { sampleWinSystem with
        m_nWidth := 1920, m_nHeight := 1080, m_displayWidth := 1920,
        m_displayHeight := 1080, m_fRefreshRate := 60000,
        m_bWindowCreated := true, m_bFullScreen := true },
      events := [Event.aml_set_native_resolution mode1080p60 "fb0".toList 0], ret := true }
    rfl rfl rfl rfl rfl rfl rfl rfl rfl rfl

/-- C6, as stated, fails: resource 7 is registered; a first CreateNewWindow call with a
configured reset delay of 3 arms the timer and sets `m_delayDispReset`; a second call, for
1280x720 at 50 Hz with a configured reset delay of 0, does not take the short circuit and
calls OnLostDisplay of resource 7 and aml_set_native_resolution, and no OnResetDisplay. -/
theorem no_reset_notification_while_flag_is_set :
    ((CWinSystemAmlogic.CreateNewWindow sampleExternal 1
        { sampleWinSystem with m_resources := [7] }
        (sampleContext 3 quietHandler quietHandler) true mode1080p60).andThen
      (fun first => CWinSystemAmlogic.CreateNewWindow sampleExternal 1 first.state
        (sampleContext 0 quietHandler quietHandler) true mode720p50)).andThen
      (fun second => Run.done second.events) =
    Run.done [Event.OnLostDisplay 7,
      Event.aml_set_native_resolution mode720p50 "fb0".toList 0] := by
  decide

/-- C6, amended: take a CreateNewWindow call that does not take the short circuit. If the
configured reset delay is greater than 0 and the call runs to its end (no handler
invalidates the iterator of a notification loop), the reset timer is armed
(`m_delayDispReset` set, the timer set to a hundred times the delay as an `unsigned int`,
that is modulo 2^32) and no OnResetDisplay is among the calls made. When no handler changes
the registry and each loop is granted a step for every registered resource, the call does
run to its end, and the calls it makes are, in order: the OnLostDisplay of every registered
resource and aml_set_native_resolution, and then, if the delay is not greater than 0 and
`m_delayDispReset` is not set when the call starts, the OnResetDisplay of every registered
resource. -/
theorem reset_notification_by_delay {F : Type} (X : External F) (fuel : Nat)
    (s : WinSystem F) (C : CallContext F) (fullScreen : Bool) (res : RESOLUTION_INFO F)
    (hcreate : CWinSystemAmlogic.noNeedToCreate X s C fullScreen res = false) :
    (∀ out, CWinSystemAmlogic.CreateNewWindow X fuel s C fullScreen res = Run.done out →
      C.delay > 0 →
        out.state.m_delayDispReset = true ∧
        out.state.m_dispResetTimer = some (CWinSystemAmlogic.timerArgument C.delay) ∧
        ∀ r, Event.OnResetDisplay r ∉ out.events) ∧
    ((∀ r, C.onLostDisplay r = []) → (∀ r, C.onResetDisplay r = []) →
      s.m_resources.length ≤ fuel →
      ∃ out, CWinSystemAmlogic.CreateNewWindow X fuel s C fullScreen res = Run.done out ∧
        (C.delay > 0 →
          out.events = s.m_resources.map Event.OnLostDisplay ++
            [Event.aml_set_native_resolution res s.m_framebuffer_name C.stereo_mode]) ∧
        (¬ C.delay > 0 → s.m_delayDispReset = false →
          out.events = s.m_resources.map Event.OnLostDisplay ++
            [Event.aml_set_native_resolution res s.m_framebuffer_name C.stereo_mode] ++
            s.m_resources.map Event.OnResetDisplay)) := by
  have hn : ¬ CWinSystemAmlogic.noNeedToCreate X s C fullScreen res = true := by
    rw [hcreate]; simp
  constructor
  · intro out h hd
    simp only [CWinSystemAmlogic.CreateNewWindow, noNeedToCreate_sizes] at h
    rw [if_neg hn] at h
    simp only [hd, if_true] at h
    cases hl : CWinSystemAmlogic.notifyLoop C.resources_capacity C.onLostDisplay fuel 0
        s.m_resources with
    | undefined => simp [hl] at h
    | unfinished => simp [hl] at h
    | done p =>
      simp [hl] at h
      rw [← h]
      simp
  · intro hq1 hq2 hfuel
    have hl := notifyLoop_quiet C.resources_capacity C.onLostDisplay hq1 fuel 0
      s.m_resources (by omega) (by omega)
    have hl2 := notifyLoop_quiet C.resources_capacity C.onResetDisplay hq2 fuel 0
      s.m_resources (by omega) (by omega)
    simp only [CWinSystemAmlogic.CreateNewWindow, noNeedToCreate_sizes]
    rw [if_neg hn]
    by_cases hd : C.delay > 0
    · simp only [hd, if_true, hl]
      simp
    · cases hflag : s.m_delayDispReset with
      | true =>
        simp only [hd, if_false, hl, hflag]
        simp
      | false =>
        simp only [hd, if_false, hl, hflag]
        simp [hl2]

theorem reset_notification_by_delay_witness :
    (∀ out, CWinSystemAmlogic.CreateNewWindow sampleExternal 2
          { sampleWinSystem with m_resources := [7, 8] }
          (sampleContext 3 quietHandler quietHandler) true mode1080p60 = Run.done out →
        out.state.m_delayDispReset = true ∧
        out.state.m_dispResetTimer = some 300 ∧
        ∀ r, Event.OnResetDisplay r ∉ out.events) ∧
    (∃ out, CWinSystemAmlogic.CreateNewWindow sampleExternal 2
          { sampleWinSystem with m_resources := [7, 8] }
          (sampleContext 3 quietHandler quietHandler) true mode1080p60 = Run.done out ∧
        out.events = [Event.OnLostDisplay 7, Event.OnLostDisplay 8,
          Event.aml_set_native_resolution mode1080p60 "fb0".toList 0]) ∧
    (∃ out, CWinSystemAmlogic.CreateNewWindow sampleExternal 2
          { sampleWinSystem with m_resources := [7, 8] }
          (sampleContext 0 quietHandler quietHandler) true mode1080p60 = Run.done out ∧
        out.events = [Event.OnLostDisplay 7, Event.OnLostDisplay 8,
          Event.aml_set_native_resolution mode1080p60 "fb0".toList 0,
          Event.OnResetDisplay 7, Event.OnResetDisplay 8]) := by
  refine ⟨?_, ?_, ?_⟩
  · intro out h
    exact (reset_notification_by_delay sampleExternal 2
      { sampleWinSystem with m_resources := [7, 8] }
      (sampleContext 3 quietHandler quietHandler) true mode1080p60 (by decide)).1 out h
      (by decide)
  · obtain ⟨out, h1, h2, _⟩ := (reset_notification_by_delay sampleExternal 2
      { sampleWinSystem with m_resources := [7, 8] }
      (sampleContext 3 quietHandler quietHandler) true mode1080p60 (by decide)).2
      (fun _ => rfl) (fun _ => rfl) (by decide)
    exact ⟨out, h1, h2 (by decide)⟩
  · obtain ⟨out, h1, _, h3⟩ := (reset_notification_by_delay sampleExternal 2
      { sampleWinSystem with m_resources := [7, 8] }
      (sampleContext 0 quietHandler quietHandler) true mode1080p60 (by decide)).2
      (fun _ => rfl) (fun _ => rfl) (by decide)
    exact ⟨out, h1, h3 (by decide) rfl⟩

/-- C7, as stated, fails: with resources 1 and 2 registered in that order and the
OnLostDisplay handler of 1 calling Unregister(2), a CreateNewWindow call that does not take
the short circuit calls OnLostDisplay of resource 1 only; OnLostDisplay of resource 2 is
not called in that pass. -/
theorem unregistered_resource_is_skipped_in_same_pass :
    (CWinSystemAmlogic.CreateNewWindow sampleExternal 2
        { sampleWinSystem with
          m_resources := CWinSystemAmlogic.Register (CWinSystemAmlogic.Register [] 1) 2 }
        (sampleContext 0 firstUnregistersSecond quietHandler) true mode1080p60).andThen
      (fun out => Run.done out.events) =
    Run.done [Event.OnLostDisplay 1,
      Event.aml_set_native_resolution mode1080p60 "fb0".toList 0,
      Event.OnResetDisplay 1] := by
  decide

/-- C7, amended: with resources R1 and R2 registered in that order, a lost-display
notification pass in which the handler of R1 calls Unregister(R2) calls the handler of R1
only: the loop walks the registry itself and reads its end again before every step, so
OnLostDisplay of R2 is not called in that pass. The registry then holds R1 alone, and a
later pass calls the handler of R1 only. -/
theorem lost_display_pass_skips_unregistered (R1 R2 : IDispResource) (capacity : Nat)
    (handler : IDispResource → List RegistryCall) (fuel : Nat)
    (hne : R1 ≠ R2) (hR1 : handler R1 = [RegistryCall.Unregister R2]) :
    CWinSystemAmlogic.notifyLoop capacity handler (fuel + 1) 0
        (CWinSystemAmlogic.Register (CWinSystemAmlogic.Register [] R1) R2) =
      Run.done ([R1], [R1]) ∧
    CWinSystemAmlogic.notifyLoop capacity handler (fuel + 1) 0 [R1] =
      Run.done ([R1], [R1]) := by
  have hend : CWinSystemAmlogic.notifyLoop capacity handler fuel 1 [R1] =
      Run.done ([R1], []) := by
    cases fuel with
    | zero => simp [CWinSystemAmlogic.notifyLoop]
    | succ n => simp [CWinSystemAmlogic.notifyLoop]
  have hne2 : ¬ R2 = R1 := fun e => hne e.symm
  have he1 : [R1, R2].erase R2 = [R1] := by
    simp [List.erase_cons, hne]
  have he2 : [R1].erase R2 = [R1] := by
    simp [List.erase_cons, hne]
  have ha1 : CWinSystemAmlogic.applyCalls capacity 0 [R1, R2] [RegistryCall.Unregister R2] =
      some [R1] := by
    simp [CWinSystemAmlogic.applyCalls, CWinSystemAmlogic.Unregister, he1, hne2]
  have ha2 : CWinSystemAmlogic.applyCalls capacity 0 [R1] [RegistryCall.Unregister R2] =
      some [R1] := by
    simp [CWinSystemAmlogic.applyCalls, CWinSystemAmlogic.Unregister, he2, hne2]
  constructor
  · simp only [CWinSystemAmlogic.notifyLoop, CWinSystemAmlogic.Register, List.nil_append,
      List.singleton_append, List.get?_cons_zero, hR1, ha1, hend]
    simp
  · simp only [CWinSystemAmlogic.notifyLoop, List.get?_cons_zero, hR1, ha2, hend]
    simp

theorem lost_display_pass_skips_unregistered_witness :
    CWinSystemAmlogic.notifyLoop 4 firstUnregistersSecond 2 0
        (CWinSystemAmlogic.Register (CWinSystemAmlogic.Register [] 1) 2) =
      Run.done ([1], [1]) ∧
    CWinSystemAmlogic.notifyLoop 4 firstUnregistersSecond 2 0 [1] = Run.done ([1], [1]) :=
  lost_display_pass_skips_unregistered 1 2 4 firstUnregistersSecond 1 (by decide) rfl

end Kodi
